import Mathlib

/-!
Verification of the LLM Governance Council deliberation pipeline
(`backend/council.py`) against its natural-language specification.

The Python module is shallowly embedded: every orchestration function is
translated into a pure Lean function.  The external responder gateway
(`query_model` / `query_models_parallel`, excluded by the spec as an opaque
collaborator) is modelled by passing each stage's per-responder outcome as a
`List (Option String)` aligned with the configured responder list; `none` is a
failed call, `some t` a successful call that returned text `t`.  Per the
spec's concurrency section, `asyncio.gather` and the parallel helper deliver
results in input order, so the lists are indexed by the responder list, not by
completion time.  Python `dict`s keyed by insertion order become association
lists; regular-expression extraction is implemented by explicit scanners over
`List Char` with Python `re` semantics (leftmost, non-overlapping matches).
Python `float` arithmetic in the rank aggregator is idealised as exact `ℚ`
arithmetic with banker's rounding (`round(x, 2)`).
-/

/-! ## Character and text utilities -/

/-- ASCII uppercase test, the `[A-Z]` character class. -/
def isUpperC (c : Char) : Bool := 65 ≤ c.toNat && c.toNat ≤ 90

/-- ASCII digit test, the `\d` character class. -/
def isDigitC (c : Char) : Bool := 48 ≤ c.toNat && c.toNat ≤ 57

/-- Python's `\s` / `str.strip` whitespace: space, tab, newline, CR, FF, VT. -/
def isSpaceC (c : Char) : Bool :=
  c == ' ' || c == '\t' || c == '\n' || c == '\r' || c == Char.ofNat 11 || c == Char.ofNat 12

/-- ASCII lower-casing of one character (Python `str.lower` on ASCII text). -/
def lowerChar (c : Char) : Char :=
  if 65 ≤ c.toNat && c.toNat ≤ 90 then Char.ofNat (c.toNat + 32) else c

/-- Lower-case a character list. -/
def lowerStr (s : List Char) : List Char := s.map lowerChar

/-- Function `stripPre pat s` returns the remainder of `s` after the literal prefix
`pat`, or `none` if `pat` is not a prefix of `s`. -/
def stripPre : List Char → List Char → Option (List Char)
  | [], s => some s
  | _ :: _, [] => none
  | p :: ps, c :: cs => if p == c then stripPre ps cs else none

/-- Case-insensitive variant of `stripPre` (for `re.IGNORECASE` patterns). -/
def stripPreCI : List Char → List Char → Option (List Char)
  | [], s => some s
  | _ :: _, [] => none
  | p :: ps, c :: cs => if lowerChar p == lowerChar c then stripPreCI ps cs else none

/-- Test that `pat` is a literal prefix of `s`. -/
def isPrefixL (pat s : List Char) : Bool := (stripPre pat s).isSome

/-- Case-insensitive prefix test. -/
def isPrefixCIL (pat s : List Char) : Bool := (stripPreCI pat s).isSome

/-- Python's substring containment `pat in s`. -/
def containsSub : List Char → List Char → Bool
  | [], pat => isPrefixL pat []
  | c :: cs, pat => isPrefixL pat (c :: cs) || containsSub cs pat

/-- Case-insensitive substring containment. -/
def containsSubCI : List Char → List Char → Bool
  | [], pat => isPrefixCIL pat []
  | c :: cs, pat => isPrefixCIL pat (c :: cs) || containsSubCI cs pat

/-- The remainder of `s` after the first occurrence of `pat`
(`s.split(pat, 1)[1]` when `pat` occurs), or `none` when `pat` does not
occur in `s`. -/
def afterFirstSub (pat : List Char) : List Char → Option (List Char)
  | [] => if isPrefixL pat [] then some [] else none
  | c :: cs =>
    if isPrefixL pat (c :: cs) then some (List.drop pat.length (c :: cs))
    else afterFirstSub pat cs

/-- The prefix of `s` strictly before the first occurrence of `pat`
(all of `s` when `pat` does not occur). -/
def takeUntilSub (pat : List Char) : List Char → List Char
  | [] => []
  | c :: cs => if isPrefixL pat (c :: cs) then [] else c :: takeUntilSub pat cs

/-- Case-insensitive variant of `takeUntilSub`. -/
def takeUntilSubCI (pat : List Char) : List Char → List Char
  | [] => []
  | c :: cs => if isPrefixCIL pat (c :: cs) then [] else c :: takeUntilSubCI pat cs

/-- Python `str.strip()`: drop whitespace from both ends. -/
def stripWs (s : List Char) : List Char :=
  ((s.dropWhile isSpaceC).reverse.dropWhile isSpaceC).reverse

/-- Python `"sep".join(parts)`. -/
def joinSep (sep : String) : List String → String
  | [] => ""
  | [x] => x
  | x :: y :: xs => x ++ sep ++ joinSep sep (y :: xs)

/-! ## Data model

Typed records for the dict-shaped payloads of `council.py` (§3 of the spec).
-/

/-- The `CouncilMember` dataclass: anonymous id, model identifier, governance
role (council.py lines 17-38). -/
structure CouncilMember where
  id : String
  model : String
  role : String
deriving DecidableEq, Repr

/-- The `member.label` property: the string `Response ` followed by the id. -/
def CouncilMember.label (m : CouncilMember) : String := "Response " ++ m.id

/-- One element of `stage1_results`: `{member_id, model, response}`. -/
structure Stage1Result where
  member_id : String
  model : String
  response : String
deriving DecidableEq, Repr

/-- One element of `delphi_results` (council.py lines 225-255). -/
structure DelphiResult where
  member_id : String
  model : String
  round1_response : String
  round2_response : String
  decision : String
  revision_reason : String
  has_material_disagreement : Bool
deriving DecidableEq, Repr

/-- One element of the local `material_disagreements` accumulator
(council.py lines 240-245). -/
structure MaterialEntry where
  member : String
  role : String
  issue : String
deriving DecidableEq, Repr

/-- One element of `stage2_results`: `{model, ranking, parsed_ranking}`. -/
structure Stage2Result where
  model : String
  ranking : String
  parsed_ranking : List String
deriving DecidableEq, Repr

/-- One value of the `response_mapping` dict (council.py lines 371-377). -/
structure RespMapEntry where
  model : String
  role : String
  label : String
deriving DecidableEq, Repr

/-- The `mapping_metadata` dict returned by Stage 2 (council.py lines 419-423). -/
structure MappingMetadata where
  council_members : List CouncilMember
  response_mapping : List (String × RespMapEntry)
  label_to_model : List (String × String)
deriving DecidableEq, Repr

/-- One element of the aggregate ranking (council.py lines 580-585). -/
structure AggregateEntry where
  model : String
  role : String
  average_rank : ℚ
  rankings_count : Nat
deriving DecidableEq, Repr

/-- The Stage-3 synthesis dict.  The `needs_human_review` key is absent from
the total-failure error dict of `run_full_council`, hence the `Option`. -/
structure Stage3Result where
  model : String
  response : String
  needs_human_review : Option Bool
deriving DecidableEq, Repr

/-- The session `metadata` dict assembled by `run_full_council`
(council.py lines 669-677). -/
structure SessionMetadata where
  council_members : List CouncilMember
  response_mapping : List (String × RespMapEntry)
  label_to_model : List (String × String)
  aggregate_rankings : List AggregateEntry
  delphi_mode : Bool
  delphi_results : Option (List DelphiResult)
  needs_human_review : Bool
deriving DecidableEq, Repr

/-- The 4-tuple returned by `run_full_council`; `metadata = none` models the
empty `{}` metadata of the total-failure path. -/
structure RunResult where
  stage1 : List Stage1Result
  stage2 : List Stage2Result
  stage3 : Stage3Result
  metadata : Option SessionMetadata
deriving DecidableEq, Repr

/-! ## Governance role mapping (council.py lines 47-64) -/

/-- The fixed `GOVERNANCE_ROLES` table. -/
def GOVERNANCE_ROLES : List (String × String) :=
  [("anthropic/claude-sonnet-4.5", "Ethics Officer"),
   ("google/gemini-3-pro-preview", "Systems Architect"),
   ("x-ai/grok-4", "Red Team")]

/-- Role resolver `get_governance_role`: exact-table lookup, then ChatGPT-family fallback,
then Mistral fallback, then the generic role. -/
def get_governance_role (model : String) : String :=
  match GOVERNANCE_ROLES.find? (fun p => p.1 = model) with
  | some p => p.2
  | none =>
    let ml := lowerStr model.data
    if containsSub ml ("openai/".data) &&
        (containsSub ml ("chatgpt".data) || containsSub ml ("gpt".data)) then
      "Systems Integrator"
    else if containsSub ml ("mistral".data) then "Safety Engineer"
    else "Council Member"

/-! ## Stage 1: collect responses (council.py lines 71-155)

The concurrent fan-out is modelled by `responses : List (Option String)`
aligned with the responder list (`asyncio.gather` preserves input order).
The loop over `zip(COUNCIL_MODELS, responses)` with the `member_id_counter`
becomes `stage1Aux`.
-/

/-- The label-assignment loop of `stage1_collect_responses`: skip failed
responders, give each success the next letter `chr(65 + counter)`. -/
def stage1Aux : Nat → List (String × Option String) → List Stage1Result × List CouncilMember
  | _, [] => ([], [])
  | k, (_, none) :: rest => stage1Aux k rest
  | k, (model, some resp) :: rest =>
    let member : CouncilMember :=
      ⟨String.mk [Char.ofNat (65 + k)], model, get_governance_role model⟩
    let p := stage1Aux (k + 1) rest
    (⟨member.id, model, resp⟩ :: p.1, member :: p.2)

/-- Stage 1, `stage1_collect_responses`: returns `(stage1_results, council_members)`. -/
def stage1_collect_responses (models : List String) (responses : List (Option String)) :
    List Stage1Result × List CouncilMember :=
  stage1Aux 0 (models.zip responses)

/-! ## Delphi helpers: reflection parsing and disagreement detection
(council.py lines 295-352) -/

/-- The literal `DECISION:` (matched case-insensitively). -/
def decisionLit : List Char := "DECISION:".data

/-- The literal `REVISE`. -/
def reviseLit : List Char := "REVISE".data

/-- The literal `AFFIRM`. -/
def affirmLit : List Char := "AFFIRM".data

/-- The literal `JUSTIFICATION`. -/
def justificationLit : List Char := "JUSTIFICATION".data

/-- The literal `FINAL RESPONSE:`. -/
def finalResponseLit : List Char := "FINAL RESPONSE:".data

/-- Try the pattern `DECISION:\s*\[?(REVISE|AFFIRM)\]?` (IGNORECASE) at the
start of `s`, returning the upper-cased group.  `\s*` and `\[?` are greedy but
their backtracking alternatives cannot succeed (neither whitespace nor `[` can
begin `REVISE`/`AFFIRM`), so the greedy reading is exact. -/
def decisionAt (s : List Char) : Option String :=
  match stripPreCI decisionLit s with
  | none => none
  | some r1 =>
    let r2 := r1.dropWhile isSpaceC
    let r3 := match r2 with
      | '[' :: t => t
      | _ => r2
    match stripPreCI reviseLit r3 with
    | some _ => some "REVISE"
    | none =>
      match stripPreCI affirmLit r3 with
      | some _ => some "AFFIRM"
      | none => none

/-- The `re.search` scan for the decision pattern: try every start position from
the left. -/
def searchDecision : List Char → Option String
  | [] => none
  | c :: cs =>
    match decisionAt (c :: cs) with
    | some d => some d
    | none => searchDecision cs

/-- Remainder after the first `:` of `s`, if any. -/
def afterFirstColon : List Char → Option (List Char)
  | [] => none
  | ':' :: cs => some cs
  | _ :: cs => afterFirstColon cs

/-- Python `re.search(r"JUSTIFICATION.*?:\s*(.*?)(?=FINAL RESPONSE:|$)", s, DOTALL |
IGNORECASE)`: find the first `JUSTIFICATION` occurrence; the lazy `.*?:`
reaches the first later `:` (no further occurrence can succeed if none has a
colon after it); `\s*` skips whitespace; the lazy group captures up to the
first `FINAL RESPONSE:` occurrence or the end of the text.  (`$` may also
match just before a final newline, but the captured group is `.strip()`ped by
the caller, so capturing to the very end is observationally identical.) -/
def searchJustification : List Char → Option (List Char)
  | [] => none
  | c :: cs =>
    match stripPreCI justificationLit (c :: cs) with
    | some r =>
      (afterFirstColon r).map (fun r2 => takeUntilSubCI finalResponseLit (r2.dropWhile isSpaceC))
    | none => searchJustification cs

/-- Python `re.search(r"FINAL RESPONSE:\s*(.*)", s, DOTALL | IGNORECASE)`: everything
after the first `FINAL RESPONSE:` marker and subsequent whitespace. -/
def searchFinalResponse : List Char → Option (List Char)
  | [] => none
  | c :: cs =>
    match stripPreCI finalResponseLit (c :: cs) with
    | some r => some (r.dropWhile isSpaceC)
    | none => searchFinalResponse cs

/-- Parser `_parse_delphi_response`: `(decision, justification[:500], final_response)`.
Decision defaults to `AFFIRM`; justification defaults to
`"No justification provided"` and is truncated to 500 characters; the final
response falls back to the whole raw text. -/
def parse_delphi_response (response_text : String) : String × String × String :=
  let cs := response_text.data
  let decision := (searchDecision cs).getD "AFFIRM"
  let justification :=
    match searchJustification cs with
    | some cap => stripWs cap
    | none => "No justification provided".data
  let final_response :=
    match searchFinalResponse cs with
    | some cap => String.mk (stripWs cap)
    | none => response_text
  (decision, String.mk (justification.take 500), final_response)

/-- The `explicit` disagreement-phrase list of `_detect_material_disagreement`. -/
def explicitPhrases : List String :=
  ["strongly disagree", "fundamental disagreement", "cannot support",
   "oppose", "dangerous recommendation", "significant divergence",
   "dissent:", "high-stakes", "human decision required"]

/-- The `high_risk_triggers` keyword list of `_detect_material_disagreement`. -/
def highRiskTriggers : List String :=
  ["forensic", "audit past", "export chat", "browser logs", "chat histories",
   "breach notification", "gdpr", "ccpa", "hipaa", "regulator",
   "ban all", "block all", "zero tolerance",
   "self-host", "open-source model", "run locally", "deploy llama",
   "local model", "on-prem model"]

/-- Detector `_detect_material_disagreement`: any explicit phrase or any high-risk
topic keyword occurs in the lower-cased text. -/
def detect_material_disagreement (response_text : String) : Bool :=
  let text := lowerStr response_text.data
  explicitPhrases.any (fun p => containsSub text p.data) ||
    highRiskTriggers.any (fun k => containsSub text k.data)

/-- Python `re.split(r"[.!?]+", text)`: split the text at maximal runs of terminal
punctuation.  `fuel` starts at the text length; every step consumes at least
one character, so the fuel never runs out on the initial call. -/
def splitSentencesAux : Nat → List Char → List Char → List (List Char)
  | 0, cur, _ => [cur.reverse]
  | _ + 1, cur, [] => [cur.reverse]
  | fuel + 1, cur, c :: cs =>
    if c == '.' || c == '!' || c == '?' then
      cur.reverse :: splitSentencesAux fuel [] (cs.dropWhile (fun d => d == '.' || d == '!' || d == '?'))
    else splitSentencesAux fuel (c :: cur) cs

/-- The keyword list of `_extract_disagreement_summary`. -/
def summaryKeywords : List String :=
  ["dissent", "disagree", "concern", "risk", "oppose", "forensic", "breach"]

/-- Helper `_extract_disagreement_summary`: first sentence containing a
disagreement/risk keyword, stripped and capped at 220 characters, defaulting
to a generic marker. -/
def extract_disagreement_summary (response_text : String) : String :=
  let sentences := splitSentencesAux response_text.data.length [] response_text.data
  match sentences.find?
      (fun s => summaryKeywords.any (fun w => containsSub (lowerStr s) w.data)) with
  | some s => String.mk ((stripWs s).take 220)
  | none => "Material disagreement detected"

/-! ## Stage 1.5: Delphi reflection (council.py lines 162-263)

The reflection calls are external; their outcomes arrive as
`responses : List (Option String)` aligned with `council_members` (one call
per member, `asyncio.gather` input order).
-/

/-- One iteration of the result loop of `stage1_5_delphi_reflection`:
a failed reflection call becomes the pass-through outcome, a successful one is
parsed. -/
def delphiOutcome (member : CouncilMember) (round1 : Stage1Result) (resp : Option String) :
    DelphiResult :=
  match resp with
  | none =>
    ⟨member.id, member.model, round1.response, round1.response, "AFFIRM",
     "Model did not respond to reflection prompt", false⟩
  | some t =>
    let parsed := parse_delphi_response t
    ⟨member.id, member.model, round1.response, parsed.2.2, parsed.1, parsed.2.1,
     detect_material_disagreement t⟩

/-- Stage 1.5, `stage1_5_delphi_reflection`: returns `(delphi_results, needs_human_review)`.
`needs_human_review` is the robust double check of lines 258-261: the
explicit `material_disagreements` accumulation is non-empty, or some outcome
is flagged. -/
def stage1_5_delphi_reflection (user_query : String) (stage1_results : List Stage1Result)
    (council_members : List CouncilMember) (responses : List (Option String)) :
    List DelphiResult × Bool :=
  let _ := user_query
  let combined := council_members.zip (stage1_results.zip responses)
  let delphi_results := combined.map (fun p => delphiOutcome p.1 p.2.1 p.2.2)
  let material_disagreements : List MaterialEntry := combined.filterMap (fun p =>
    match p.2.2 with
    | some t =>
      if detect_material_disagreement t then
        some ⟨p.1.model, p.1.role, extract_disagreement_summary t⟩
      else none
    | none => none)
  let needs_human_review :=
    !material_disagreements.isEmpty || delphi_results.any (fun r => r.has_material_disagreement)
  (delphi_results, needs_human_review)

/-! ## Ranking parsing (council.py lines 538-550) -/

/-- The literal `Response ` that starts every label match. -/
def respLit : List Char := "Response ".data

/-- The literal `FINAL RANKING:` marker. -/
def finalRankingLit : List Char := "FINAL RANKING:".data

/-- Python `re.findall(r"Response [A-Z]", s)`: leftmost, non-overlapping matches,
each returned as the full matched text.  `fuel` starts at the text length;
every step consumes at least one character. -/
def findRespAux : Nat → List Char → List (List Char)
  | 0, _ => []
  | _ + 1, [] => []
  | fuel + 1, c :: cs =>
    match stripPre respLit (c :: cs) with
    | some (d :: rest) =>
      if isUpperC d then (respLit ++ [d]) :: findRespAux fuel rest
      else findRespAux fuel cs
    | _ => findRespAux fuel cs

/-- All `Response <Letter>` matches of a text. -/
def findResponseLabels (s : List Char) : List (List Char) := findRespAux s.length s

/-- Try the pattern `\d+\.\s*Response [A-Z]` at the start of `s`, returning
the label letter and the remainder after the match.  `\d+` and `\s*` are
greedy; their backtracking alternatives cannot succeed (`.` is not a digit,
`R` is not whitespace), so the maximal-run reading is exact. -/
def numberedAt : List Char → Option (Char × List Char)
  | [] => none
  | c :: cs =>
    if isDigitC c then
      let p := cs.span isDigitC
      match p.2 with
      | '.' :: r2 =>
        match stripPre respLit (r2.dropWhile isSpaceC) with
        | some (d :: r4) => if isUpperC d then some (d, r4) else none
        | _ => none
      | _ => none
    else none

/-- Python `re.findall(r"\d+\.\s*Response [A-Z]", s)`, keeping for each match the
letter of its embedded `Response <Letter>` (which is what
`parse_ranking_from_text` extracts from each full match with `re.search`). -/
def findNumAux : Nat → List Char → List Char
  | 0, _ => []
  | _ + 1, [] => []
  | fuel + 1, c :: cs =>
    match numberedAt (c :: cs) with
    | some (d, rest) => d :: findNumAux fuel rest
    | none => findNumAux fuel cs

/-- The label letters of all numbered-list matches of a text. -/
def findNumberedLabels (s : List Char) : List Char := findNumAux s.length s

/-- Parser `parse_ranking_from_text`.  When the `FINAL RANKING:` marker occurs, the
section examined is `ranking_text.split("FINAL RANKING:")[1]`, i.e. the text
between the first marker and its next occurrence (or the end of the text);
numbered-list matches are preferred, else bare `Response <Letter>` matches of
that section (possibly none).  Without the marker, the whole text is scanned
for bare matches. -/
def parse_ranking_from_text (ranking_text : String) : List String :=
  let cs := ranking_text.data
  match afterFirstSub finalRankingLit cs with
  | some rest =>
    let ranking_section := takeUntilSub finalRankingLit rest
    let numbered := findNumberedLabels ranking_section
    if numbered.isEmpty then (findResponseLabels ranking_section).map String.mk
    else numbered.map (fun d => "Response " ++ String.mk [d])
  | none => (findResponseLabels cs).map String.mk

/-- The ranking parser as the specification sentence words it: the section
examined is *the substring after the first `FINAL RANKING:` marker* (not
stopping at a repeated marker).  Used to compare the spec's description with
the code's `split(...)[1]` behaviour. -/
def parseRankingSpecAfterFirst (ranking_text : String) : List String :=
  let cs := ranking_text.data
  match afterFirstSub finalRankingLit cs with
  | some rest =>
    let numbered := findNumberedLabels rest
    if numbered.isEmpty then (findResponseLabels rest).map String.mk
    else numbered.map (fun d => "Response " ++ String.mk [d])
  | none => (findResponseLabels cs).map String.mk

/-! ## Stage 2: collect rankings (council.py lines 359-425)

`query_models_parallel(COUNCIL_MODELS, messages)` is issued to **all**
configured responders (not only Stage-1 successes); per the spec's ordering
guarantee its result map is keyed in responder-list order, modelled by
`responses : List (Option String)` aligned with `models`.
-/

/-- The anonymized response block of the ranking prompt:
`"\n\n".join(f"{member.label}:\n{result['response']}")`. -/
def responsesTextOf (council_members : List CouncilMember)
    (stage1_results : List Stage1Result) : String :=
  joinSep "\n\n"
    ((council_members.zip stage1_results).map (fun p => p.1.label ++ ":\n" ++ p.2.response))

/-- The Stage-2 ranking prompt (council.py lines 384-402). -/
def rankingPromptOf (user_query : String) (council_members : List CouncilMember)
    (stage1_results : List Stage1Result) : String :=
  "You are evaluating different responses to the following question:\n\nQuestion: "
    ++ user_query
    ++ "\n\nHere are the responses from different models (anonymized):\n\n"
    ++ responsesTextOf council_members stage1_results
    ++ "\n\nYour task:\n1) Evaluate each response briefly (strengths + weaknesses).\n"
    ++ "2) Then, at the very end, provide a final ranking.\n\n"
    ++ "IMPORTANT: Your final ranking MUST be formatted EXACTLY as follows:\n"
    ++ "- Start with the line \"FINAL RANKING:\" (all caps, with colon)\n"
    ++ "- Then list responses from best to worst as a numbered list\n"
    ++ "- Each line must be: number, period, space, then ONLY the response label (e.g., \"1. Response A\")\n"
    ++ "- Do not add any extra text in the ranking section\n\n"
    ++ "Now provide your evaluation and ranking:"

/-- Stage 2, `stage2_collect_rankings`: returns `(stage2_results, mapping_metadata)`.
Every configured responder that answers the ranking call contributes a
`Stage2Result`, whether or not it succeeded in Stage 1. -/
def stage2_collect_rankings (user_query : String) (models : List String)
    (stage1_results : List Stage1Result) (council_members : List CouncilMember)
    (responses : List (Option String)) : List Stage2Result × MappingMetadata :=
  let _ := rankingPromptOf user_query council_members stage1_results
  let response_mapping : List (String × RespMapEntry) :=
    council_members.map (fun m => (m.id, ⟨m.model, m.role, m.label⟩))
  let label_to_model : List (String × String) :=
    council_members.map (fun m => (m.label, m.model))
  let stage2_results : List Stage2Result := (models.zip responses).filterMap (fun p =>
    p.2.map (fun t => ⟨p.1, t, parse_ranking_from_text t⟩))
  (stage2_results, ⟨council_members, response_mapping, label_to_model⟩)

/-! ## Rank aggregation (council.py lines 553-588) -/

/-- Banker's rounding of the fraction `a / b` (with `b > 0`) to an integer:
the tie-to-even rule of Python's `round`.  `f` is the floor of the quotient
and `r` the remainder. -/
def roundHalfEvenInt (a b : ℤ) : ℤ :=
  let f : ℤ := Int.fdiv a b
  let r : ℤ := a - f * b
  if 2 * r < b then f
  else if b < 2 * r then f + 1
  else if f % 2 = 0 then f else f + 1

/-- Python `round(x, 2)`: round to two decimal places (idealised over `ℚ`; Python
computes on binary floats).  Phrased with `Rat.divInt` on the numerator and
denominator so that it evaluates inside the kernel. -/
def round2 (q : ℚ) : ℚ := Rat.divInt (roundHalfEvenInt (100 * q.num) (q.den : ℤ)) 100

/-- The exact mean of a list of positions (`sum(positions)/len(positions)`,
idealised as an exact rational). -/
def meanOfPositions (l : List Nat) : ℚ := Rat.divInt (l.sum : ℤ) (l.length : ℤ)

/-- Python `label.replace("Response ", "").strip()`: delete every (non-overlapping)
occurrence of `Response ` and strip whitespace. -/
def replaceAllAux (pat : List Char) : Nat → List Char → List Char
  | 0, s => s
  | _ + 1, [] => []
  | fuel + 1, c :: cs =>
    match stripPre pat (c :: cs) with
    | some r => replaceAllAux pat fuel r
    | none => c :: replaceAllAux pat fuel cs

/-- The `response_id` extracted from a parsed label. -/
def stripLabel (label : String) : String :=
  String.mk (stripWs (replaceAllAux respLit label.data.length label.data))

/-- Dict lookup in the `response_mapping`. -/
def lookupMap (k : String) (mapping : List (String × RespMapEntry)) : Option RespMapEntry :=
  (mapping.find? (fun p => p.1 = k)).map (fun p => p.2)

/-- Python `model_positions[model_name].append(position)` on a `defaultdict(list)`:
append to the existing key, else insert the key at the end. -/
def recordPos : List (String × List Nat) → String → Nat → List (String × List Nat)
  | [], m, p => [(m, [p])]
  | q :: rest, m, p =>
    if q.1 = m then (q.1, q.2 ++ [p]) :: rest else q :: recordPos rest m p

/-- The parsed ranking actually used for a submission:
`ranking.get("parsed_ranking") or parse_ranking_from_text(ranking.get("ranking", ""))`
(an empty stored list is falsy and triggers the re-parse). -/
def effectiveParsed (sub : Stage2Result) : List String :=
  if sub.parsed_ranking.isEmpty then parse_ranking_from_text sub.ranking else sub.parsed_ranking

/-- Record one ranking submission into `model_positions`: walk the parsed
labels with 1-based positions, mapping each label through `response_mapping`
and skipping labels absent from it. -/
def recordSubmission (response_mapping : List (String × RespMapEntry))
    (acc : List (String × List Nat)) (sub : Stage2Result) : List (String × List Nat) :=
  (effectiveParsed sub).enum.foldl (fun a p =>
    match lookupMap (stripLabel p.2) response_mapping with
    | some e => recordPos a e.model (p.1 + 1)
    | none => a) acc

/-- The first governance role found for a model in the `response_mapping`
(dict order), defaulting to `"Council Member"`. -/
def roleForModel (response_mapping : List (String × RespMapEntry)) (m : String) : String :=
  match response_mapping.find? (fun p => p.2.model = m) with
  | some p => p.2.role
  | none => "Council Member"

/-- Aggregator `calculate_aggregate_rankings`: positions are accumulated per model (in
first-seen order), each model with at least one position yields an entry with
the 2-decimal mean and contributing count, and the result is the stable
ascending sort by `average_rank` (Python `list.sort` is stable;
`List.insertionSort` inserts before equal keys and is the same stable sort). -/
def calculate_aggregate_rankings (stage2_results : List Stage2Result)
    (response_mapping : List (String × RespMapEntry)) : List AggregateEntry :=
  let model_positions := stage2_results.foldl (recordSubmission response_mapping) []
  let aggregate : List AggregateEntry := model_positions.filterMap (fun q =>
    if q.2.isEmpty then none
    else some ⟨q.1, roleForModel response_mapping q.1,
      round2 (meanOfPositions q.2), q.2.length⟩)
  aggregate.insertionSort (fun a b => a.average_rank ≤ b.average_rank)

/-! ## Stage 3: chairman synthesis (council.py lines 432-531) -/

/-- The per-member context block of the chairman prompt: round-2 records in
Delphi mode (Python `if delphi_results:` — true only for a non-`None`,
non-empty list), round-1 records otherwise. -/
def synthesisTextOf (stage1_results : List Stage1Result)
    (delphi_results : Option (List DelphiResult)) : String :=
  if (delphi_results.getD []).isEmpty then
    joinSep "\n\n" (stage1_results.map (fun r =>
      "Model: " ++ r.model ++ "\nResponse: " ++ r.response))
  else
    joinSep "\n\n" ((delphi_results.getD []).map (fun r =>
      "Model: " ++ r.model ++ "\nDecision: " ++ r.decision ++ "\nReason: "
        ++ r.revision_reason ++ "\nFinal Response: " ++ r.round2_response))

/-- The `mode_context` line of the chairman prompt. -/
def modeContextOf (delphi_results : Option (List DelphiResult)) : String :=
  if (delphi_results.getD []).isEmpty then "Individual responses:"
  else "After a Delphi reflection round where models reviewed anonymized peer feedback:"

/-- The `PEER RANKINGS` block of the chairman prompt. -/
def stage2TextOf (stage2_results : List Stage2Result) : String :=
  if stage2_results.isEmpty then "No rankings available."
  else joinSep "\n\n" (stage2_results.map (fun r =>
    "Model: " ++ r.model ++ "\nRanking: " ++ r.ranking))

/-- The chairman prompt before the conditional escalation section
(council.py lines 465-502). -/
def chairmanPromptCore (user_query : String) (stage1_results : List Stage1Result)
    (stage2_results : List Stage2Result) (delphi_results : Option (List DelphiResult)) :
    String :=
  "You are the Chairman of an AI Governance Council. Multiple AI models have deliberated on the user's question.\n\n"
    ++ "Original Question:\n" ++ user_query ++ "\n\n"
    ++ modeContextOf delphi_results ++ "\n"
    ++ synthesisTextOf stage1_results delphi_results
    ++ "\n\nPEER RANKINGS:\n" ++ stage2TextOf stage2_results
    ++ "\n\nYou must produce a governance-grade output. Follow this structure exactly:\n\n"
    ++ "A) CONSENSUS SUMMARY (3–6 bullets)\n- What do most models agree on?\n\n"
    ++ "B) KEY DISSENT (only if present)\n"
    ++ "- Where do models materially disagree? Preserve dissent; do NOT force consensus.\n"
    ++ "- If dissent involves legal/regulatory exposure, retroactive investigation, or blocking policies, mark it as HIGH-STAKES.\n\n"
    ++ "C) 30–60 DAY CONSOLIDATED PLAN (phased)\n"
    ++ "- Phase 1 (Days 1–15): immediate containment + safe-harbor rules\n"
    ++ "- Phase 2 (Days 15–30): sanctioned tools + minimal policy\n"
    ++ "- Phase 3 (Days 30–45): technical boundary controls\n"
    ++ "- Phase 4 (Days 45–60): training + monitoring + metrics\n"
    ++ "Each phase MUST include: Owner, Action, Output.\n\n"
    ++ "D) DECISION BOUNDARIES (when to escalate)\n"
    ++ "List clear triggers that require human leadership or counsel. At minimum include:\n"
    ++ "- handling regulated data (PII/PHI/PCI) or proprietary IP exposure,\n"
    ++ "- retroactive forensic investigation or breach-notification decisions,\n"
    ++ "- recommendations that materially increase legal or operational exposure,\n"
    ++ "- strong unresolved disagreement after Delphi Round 2.\n\n"
    ++ "E) KILL SWITCH / STOP CONDITIONS (fail-safe)\n"
    ++ "Define 1–2 conditions under which the organization must PAUSE rollout and activate incident response.\n"
    ++ "Include who has authority to trigger the stop and what happens next.\n"

/-- The escalation section appended only when `needs_human_review` is set
(council.py lines 504-513). -/
def escalationSection : String :=
  "\nF) ESCALATE TO HUMAN REVIEW — HUMAN DECISION REQUIRED\n"
    ++ "State clearly: \"HUMAN DECISION REQUIRED\".\nDescribe:\n"
    ++ "1) The specific decision point.\n2) 2–3 options.\n3) Pros/cons + operational impact.\n"
    ++ "Use compliance-safe language: do NOT recommend \"ignoring\" past exposure. Instead describe proportional investigation trade-offs and advise consulting counsel where required.\n"

/-- The full chairman prompt sent to the chairman responder. -/
def chairmanPromptOf (user_query : String) (stage1_results : List Stage1Result)
    (stage2_results : List Stage2Result) (delphi_results : Option (List DelphiResult))
    (needs_human_review : Bool) : String :=
  (if needs_human_review then
      chairmanPromptCore user_query stage1_results stage2_results delphi_results
        ++ escalationSection
    else chairmanPromptCore user_query stage1_results stage2_results delphi_results)
    ++ "\nProvide your final synthesis now."

/-- Stage 3, `stage3_synthesize_final`: one call to the chairman responder with
`chairmanPromptOf`; on failure an explicit error artifact still carrying the
escalation boolean. -/
def stage3_synthesize_final (user_query : String) (stage1_results : List Stage1Result)
    (stage2_results : List Stage2Result) (delphi_results : Option (List DelphiResult))
    (needs_human_review : Bool) (chairman_model : String) (resp : Option String) :
    Stage3Result :=
  let _ := chairmanPromptOf user_query stage1_results stage2_results delphi_results
    needs_human_review
  match resp with
  | none => ⟨chairman_model, "Error: Unable to generate final synthesis.", some needs_human_review⟩
  | some t => ⟨chairman_model, t, some needs_human_review⟩

/-! ## Full pipeline (council.py lines 620-679)

`COUNCIL_MODELS`, `CHAIRMAN_MODEL` and `DELPHI_MODE` live in the missing
`backend/config.py`; per the spec they are configuration inputs, so they are
parameters here.  The three gateway interaction points (Stage-1 calls,
reflection calls, Stage-2 calls, chairman call) are supplied as
`Option String` outcomes in responder-list order.
-/

/-- Pipeline `run_full_council`. -/
def run_full_council (models : List String) (chairman_model : String) (delphi_mode : Bool)
    (user_query : String) (stage1Responses delphiResponses stage2Responses : List (Option String))
    (chairmanResponse : Option String) : RunResult :=
  let s1 := stage1_collect_responses models stage1Responses
  let stage1_results := s1.1
  let council_members := s1.2
  if stage1_results.isEmpty then
    ⟨[], [], ⟨"error", "All models failed to respond. Please try again.", none⟩, none⟩
  else
    let dpair : Option (List DelphiResult) × Bool :=
      if delphi_mode then
        let p := stage1_5_delphi_reflection user_query stage1_results council_members
          delphiResponses
        (some p.1, p.2)
      else (none, false)
    let delphi_results := dpair.1
    let needs_human_review := dpair.2
    let ranking_input :=
      if delphi_mode && !(delphi_results.getD []).isEmpty then
        (delphi_results.getD []).map (fun r =>
          (⟨r.member_id, r.model, r.round2_response⟩ : Stage1Result))
      else stage1_results
    let s2 := stage2_collect_rankings user_query models ranking_input council_members
      stage2Responses
    let stage2_results := s2.1
    let mapping_metadata := s2.2
    let response_mapping := mapping_metadata.response_mapping
    let aggregate_rankings := calculate_aggregate_rankings stage2_results response_mapping
    let stage3_result := stage3_synthesize_final user_query stage1_results stage2_results
      delphi_results needs_human_review chairman_model chairmanResponse
    let metadata : SessionMetadata :=
      ⟨mapping_metadata.council_members, response_mapping, mapping_metadata.label_to_model,
       aggregate_rankings, delphi_mode, if delphi_mode then delphi_results else none,
       needs_human_review⟩
    ⟨stage1_results, stage2_results, stage3_result, some metadata⟩

/-! # Verification

## Stage-1 label assignment (claim C1) -/

/-- The member list built by the Stage-1 loop: models of successful responders
in input order, with ids `chr(65 + k)`, `chr(65 + k + 1)`, … . -/
theorem stage1Aux_spec : ∀ (l : List (String × Option String)) (k : Nat),
    (stage1Aux k l).2.map (fun m => m.model) =
        l.filterMap (fun p => p.2.map (fun _ => p.1)) ∧
      ∀ i (h : i < (stage1Aux k l).2.length),
        ((stage1Aux k l).2.get ⟨i, h⟩).id = String.mk [Char.ofNat (65 + k + i)]
  | [], k => by simp [stage1Aux]
  | (m, none) :: rest, k => by
    simpa [stage1Aux] using stage1Aux_spec rest k
  | (m, some r) :: rest, k => by
    have ih := stage1Aux_spec rest (k + 1)
    refine ⟨by simp [stage1Aux, ih.1], ?_⟩
    intro i h
    match i with
    | 0 => simp [stage1Aux]
    | i + 1 =>
      have hi : i < (stage1Aux (k + 1) rest).2.length := by
        simpa [stage1Aux] using h
      have := ih.2 i hi
      simpa [stage1Aux, Nat.add_assoc, Nat.add_comm 1 i] using this

/-- Counting successes through the zip. -/
theorem filterMap_zip_length : ∀ (ms : List String) (rs : List (Option String)),
    ms.length = rs.length →
    ((ms.zip rs).filterMap (fun p => p.2.map (fun _ => p.1))).length =
      (rs.filter Option.isSome).length
  | [], [], _ => rfl
  | [], _ :: _, h => by simp at h
  | _ :: _, [], h => by simp at h
  | m :: ms, none :: rs, h => by
    simpa using filterMap_zip_length ms rs (by simpa using h)
  | m :: ms, some r :: rs, h => by
    simpa using filterMap_zip_length ms rs (by simpa using h)

/-- Claim C1 — for every session and every pattern of per-responder Stage-1
success/failure (with the configured responder list of at most 26 entries,
§5's bounded fan-out), the Stage-1 member labels are single uppercase letters,
contiguous from `'A'`, assigned in input-list order to exactly the responders
whose call succeeded; they are pairwise distinct, and their number equals the
number of successful Stage-1 responses. -/
theorem stage1_labels_unique_contiguous (models : List String)
    (responses : List (Option String)) (hlen : models.length = responses.length)
    (hsize : models.length ≤ 26) :
    (stage1_collect_responses models responses).2.map (fun m => m.model) =
        (models.zip responses).filterMap (fun p => p.2.map (fun _ => p.1)) ∧
      (stage1_collect_responses models responses).2.length =
        (responses.filter Option.isSome).length ∧
      (∀ i (h : i < (stage1_collect_responses models responses).2.length),
        ((stage1_collect_responses models responses).2.get ⟨i, h⟩).id =
          String.mk [Char.ofNat (65 + i)]) ∧
      (∀ i (h : i < (stage1_collect_responses models responses).2.length),
        ∃ c, isUpperC c = true ∧
          ((stage1_collect_responses models responses).2.get ⟨i, h⟩).id = String.mk [c]) ∧
      ((stage1_collect_responses models responses).2.map (fun m => m.id)).Nodup := by
  have base := stage1Aux_spec (models.zip responses) 0
  have hml : (stage1_collect_responses models responses).2.map (fun m => m.model) =
      (models.zip responses).filterMap (fun p => p.2.map (fun _ => p.1)) := base.1
  have hcount : (stage1_collect_responses models responses).2.length =
      (responses.filter Option.isSome).length := by
    have := congrArg List.length hml
    simpa [filterMap_zip_length models responses hlen] using this
  have hid : ∀ i (h : i < (stage1_collect_responses models responses).2.length),
      ((stage1_collect_responses models responses).2.get ⟨i, h⟩).id =
        String.mk [Char.ofNat (65 + i)] := by
    intro i h
    simpa using base.2 i h
  have hbound : (stage1_collect_responses models responses).2.length ≤ 26 := by
    have hzip : (models.zip responses).length ≤ 26 := by
      simp only [List.length_zip]
      omega
    have hlenle : (stage1_collect_responses models responses).2.length ≤
        (models.zip responses).length := by
      have := congrArg List.length hml
      simp only [List.length_map] at this
      rw [this]
      exact List.length_filterMap_le _ _
    omega
  have hupper : ∀ k, k < 26 → isUpperC (Char.ofNat (65 + k)) = true := by decide
  have hinj : ∀ i, i < 26 → ∀ j, j < 26 → i ≠ j →
      Char.ofNat (65 + i) ≠ Char.ofNat (65 + j) := by decide
  refine ⟨hml, hcount, hid, ?_, ?_⟩
  · intro i h
    exact ⟨Char.ofNat (65 + i), hupper i (by omega), hid i h⟩
  · rw [List.Nodup, List.pairwise_iff_get]
    intro i j hij
    have hi' : (i : ℕ) < (stage1_collect_responses models responses).2.length := by
      have := i.isLt
      simpa using this
    have hj' : (j : ℕ) < (stage1_collect_responses models responses).2.length := by
      have := j.isLt
      simpa using this
    simp only [List.get_map]
    rw [hid _ hi', hid _ hj']
    intro heq
    have hc : Char.ofNat (65 + (i : ℕ)) = Char.ofNat (65 + (j : ℕ)) := by
      have := congrArg String.data heq
      simpa using this
    have hij' : (i : ℕ) < (j : ℕ) := hij
    exact hinj _ (by omega) _ (by omega) (by omega) hc

/-- Concrete witness for C1: three responders, the middle one failing, get
labels `A`, `B` on the first and third models, and both parts of the
conclusion evaluate as expected. -/
theorem stage1_labels_unique_contiguous_witness :
    (stage1_collect_responses ["m/one", "m/two", "m/three"]
        [some "r1", none, some "r3"]).2.map (fun m => m.model) = ["m/one", "m/three"] ∧
      (stage1_collect_responses ["m/one", "m/two", "m/three"]
        [some "r1", none, some "r3"]).2.map (fun m => m.id) = ["A", "B"] := by
  have h := stage1_labels_unique_contiguous ["m/one", "m/two", "m/three"]
    [some "r1", none, some "r3"] (by decide) (by decide)
  refine ⟨by simpa using h.1, by decide⟩

/-! ## The ranking parser (claim C4) -/

/-- A successful `stripPre` witnesses the literal prefix. -/
theorem stripPre_eq_some : ∀ (pat s r : List Char), stripPre pat s = some r → s = pat ++ r
  | [], s, r => by
    intro h
    simp only [stripPre, Option.some.injEq] at h
    simp [h]
  | p :: ps, [], r => by
    intro h
    simp [stripPre] at h
  | p :: ps, c :: cs, r => by
    intro h
    simp only [stripPre] at h
    split at h
    · next hpc =>
      have hc : p = c := by simpa using hpc
      subst hc
      simpa using stripPre_eq_some ps cs r h
    · simp at h

/-- The remainder returned by a successful `stripPre` is `s.drop pat.length`. -/
theorem stripPre_eq_drop (pat s r : List Char) (h : stripPre pat s = some r) :
    r = s.drop pat.length := by
  have := stripPre_eq_some pat s r h
  subst this
  simp

/-- Search `afterFirstSub` fails exactly when the pattern does not occur. -/
theorem afterFirstSub_none_iff (pat : List Char) : ∀ (s : List Char),
    afterFirstSub pat s = none ↔ containsSub s pat = false
  | [] => by
    simp only [afterFirstSub, containsSub]
    split <;> simp_all
  | c :: cs => by
    simp only [afterFirstSub, containsSub]
    split
    · simp_all
    · next hpre =>
      simp only [Bool.or_eq_false_iff]
      rw [afterFirstSub_none_iff pat cs]
      simp [Bool.not_eq_true] at hpre
      simp [hpre]

/-- A successful `afterFirstSub` splits the text at the *first* occurrence of
the pattern: the text decomposes as `pre ++ pat ++ rest` with no occurrence of
`pat` starting inside `pre`. -/
theorem afterFirstSub_decomp (pat : List Char) : ∀ (s rest : List Char),
    afterFirstSub pat s = some rest →
    ∃ pre, s = pre ++ pat ++ rest ∧ ∀ i, i < pre.length → isPrefixL pat (s.drop i) = false
  | [], rest => by
    intro h
    simp only [afterFirstSub] at h
    split at h
    · next hpre =>
      refine ⟨[], ?_, by simp⟩
      simp only [Option.some.injEq] at h
      subst h
      cases hsp : stripPre pat [] with
      | none => simp [isPrefixL, hsp] at hpre
      | some r =>
        have := stripPre_eq_some pat [] r hsp
        simp at this
        simp [this.1]
    · simp at h
  | c :: cs, rest => by
    intro h
    simp only [afterFirstSub] at h
    split at h
    · next hpre =>
      simp only [Option.some.injEq] at h
      cases hsp : stripPre pat (c :: cs) with
      | none => simp [isPrefixL, hsp] at hpre
      | some r =>
        have hdec := stripPre_eq_some pat (c :: cs) r hsp
        have hr : r = (c :: cs).drop pat.length := stripPre_eq_drop pat (c :: cs) r hsp
        refine ⟨[], ?_, by simp⟩
        rw [← h, ← hr]
        simpa using hdec
    · next hpre =>
      obtain ⟨pre, hdec, hmin⟩ := afterFirstSub_decomp pat cs rest h
      refine ⟨c :: pre, by simp [hdec], ?_⟩
      intro i hi
      match i with
      | 0 => simpa [Bool.not_eq_true] using hpre
      | i + 1 =>
        simpa using hmin i (by simpa using hi)

/-- Every element of `findRespAux` is `Response ` followed by one uppercase
letter. -/
theorem findRespAux_form : ∀ (fuel : Nat) (s : List Char),
    ∀ l ∈ findRespAux fuel s, ∃ c, isUpperC c = true ∧ l = respLit ++ [c]
  | 0, s => by simp [findRespAux]
  | _ + 1, [] => by simp [findRespAux]
  | fuel + 1, c :: cs => by
    intro l hl
    simp only [findRespAux] at hl
    split at hl
    · next d rest hsp =>
      split at hl
      · next hd =>
        rcases List.mem_cons.1 hl with h1 | h2
        · exact ⟨d, hd, h1⟩
        · exact findRespAux_form fuel rest l h2
      · exact findRespAux_form fuel cs l hl
    · exact findRespAux_form fuel cs l hl

/-- A successful `numberedAt` yields an uppercase label letter. -/
theorem numberedAt_upper (s : List Char) (d : Char) (rest : List Char)
    (h : numberedAt s = some (d, rest)) : isUpperC d = true := by
  cases s with
  | nil => simp [numberedAt] at h
  | cons c cs =>
    simp only [numberedAt] at h
    split at h
    · split at h
      · split at h
        · next d2 r4 hsp =>
          split at h
          · next hd2 =>
            simp only [Option.some.injEq, Prod.mk.injEq] at h
            rw [← h.1]
            exact hd2
          · simp at h
        · simp at h
      · simp at h
    · simp at h

/-- Every letter extracted by `findNumAux` is uppercase. -/
theorem findNumAux_upper : ∀ (fuel : Nat) (s : List Char),
    ∀ d ∈ findNumAux fuel s, isUpperC d = true
  | 0, s => by simp [findNumAux]
  | _ + 1, [] => by simp [findNumAux]
  | fuel + 1, c :: cs => by
    intro d hd
    simp only [findNumAux] at hd
    split at hd
    · next d1 rest1 hna =>
      rcases List.mem_cons.1 hd with h1 | h2
      · subst h1
        exact numberedAt_upper (c :: cs) d rest1 hna
      · exact findNumAux_upper fuel rest1 d h2
    · exact findNumAux_upper fuel cs d hd

/-- Claim C4 (amended) — the ranking parser's three-tier fallback, where the
section examined when the `FINAL RANKING:` marker occurs is the substring
*between the first marker and its next occurrence* (or the end of the text),
as `split(...)[1]` computes, rather than the entire remainder of the text:
(1) with no marker, the whole text is scanned for bare `Response <Letter>`
occurrences in order; (2) with a marker, the text splits at the first marker
occurrence and the parser prefers numbered-list matches of the section before
the next marker, falling back to that section's bare matches; (3) every
parsed item is a label token `Response <uppercase letter>`; and the two
concrete spec examples parse as stated. -/
theorem parse_ranking_three_tier (s : String) :
    (containsSub s.data finalRankingLit = false →
        parse_ranking_from_text s = (findResponseLabels s.data).map String.mk) ∧
      (∀ rest, afterFirstSub finalRankingLit s.data = some rest →
        (∃ pre, s.data = pre ++ finalRankingLit ++ rest ∧
            ∀ i, i < pre.length → isPrefixL finalRankingLit (s.data.drop i) = false) ∧
          parse_ranking_from_text s =
            (if (findNumberedLabels (takeUntilSub finalRankingLit rest)).isEmpty then
              (findResponseLabels (takeUntilSub finalRankingLit rest)).map String.mk
            else (findNumberedLabels (takeUntilSub finalRankingLit rest)).map
              (fun d => "Response " ++ String.mk [d]))) ∧
      (∀ l ∈ parse_ranking_from_text s,
        ∃ c, isUpperC c = true ∧ l = "Response " ++ String.mk [c]) ∧
      parse_ranking_from_text "FINAL RANKING:\n1. Response B\n2. Response A" =
        ["Response B", "Response A"] ∧
      parse_ranking_from_text "I think Response C beats Response A overall" =
        ["Response C", "Response A"] := by
  refine ⟨?_, ?_, ?_, by decide, by decide⟩
  · intro hmarker
    have hnone : afterFirstSub finalRankingLit s.data = none :=
      (afterFirstSub_none_iff _ _).2 hmarker
    simp [parse_ranking_from_text, hnone]
  · intro rest hsome
    refine ⟨afterFirstSub_decomp _ s.data rest hsome, ?_⟩
    simp [parse_ranking_from_text, hsome]
  · intro l hl
    simp only [parse_ranking_from_text] at hl
    split at hl
    · next rest hafter =>
      split at hl
      · simp only [List.mem_map, findResponseLabels] at hl
        obtain ⟨l2, hl2, hmk⟩ := hl
        obtain ⟨c, hc, hform⟩ := findRespAux_form _ _ l2 hl2
        exact ⟨c, hc, by rw [← hmk, hform]; rfl⟩
      · simp only [List.mem_map, findNumberedLabels] at hl
        obtain ⟨d2, hd2, hmk⟩ := hl
        exact ⟨d2, findNumAux_upper _ _ d2 hd2, hmk.symm⟩
    · next hafter =>
      simp only [List.mem_map, findResponseLabels] at hl
      obtain ⟨l2, hl2, hmk⟩ := hl
      obtain ⟨c, hc, hform⟩ := findRespAux_form _ _ l2 hl2
      exact ⟨c, hc, by rw [← hmk, hform]; rfl⟩

/-- Witness for the amended C4: a marker-free text takes the whole-text scan
tier and parses to its bare label mentions in order. -/
theorem parse_ranking_three_tier_witness :
    parse_ranking_from_text "pick Response D over Response B" =
      ["Response D", "Response B"] := by
  have h := (parse_ranking_three_tier "pick Response D over Response B").1 (by decide)
  rw [h]
  decide

/-- Claim C4 counterexample — on a text whose `FINAL RANKING:` marker occurs
twice, the code scans only the (empty) segment between the two markers and
parses nothing, while the claim's "substring after the first marker" reading
(`parseRankingSpecAfterFirst`) finds the numbered match after the second
marker. -/
theorem parse_ranking_after_first_counterexample :
    parse_ranking_from_text "FINAL RANKING: FINAL RANKING:\n1. Response B" = [] ∧
      parseRankingSpecAfterFirst "FINAL RANKING: FINAL RANKING:\n1. Response B" =
        ["Response B"] ∧
      ([] : List String) ≠ ["Response B"] := by
  refine ⟨by decide, by decide, by decide⟩

/-! ## The Delphi reflection parser (claim C7) -/

/-- A successful `decisionAt` only ever produces `REVISE` or `AFFIRM`. -/
theorem decisionAt_mem (s : List Char) (d : String) (h : decisionAt s = some d) :
    d = "REVISE" ∨ d = "AFFIRM" := by
  simp only [decisionAt] at h
  split at h
  · simp at h
  · split at h
    · simp only [Option.some.injEq] at h
      exact Or.inl h.symm
    · split at h
      · simp only [Option.some.injEq] at h
        exact Or.inr h.symm
      · simp at h

/-- A successful decision search only ever produces `REVISE` or `AFFIRM`. -/
theorem searchDecision_mem : ∀ (s : List Char) (d : String), searchDecision s = some d →
    d = "REVISE" ∨ d = "AFFIRM"
  | [], d => by simp [searchDecision]
  | c :: cs, d => by
    intro h
    simp only [searchDecision] at h
    split at h
    · next d1 hda =>
      simp only [Option.some.injEq] at h
      subst h
      exact decisionAt_mem (c :: cs) d1 hda
    · exact searchDecision_mem cs d h

/-- The final-response search fails exactly when the (case-insensitive)
`FINAL RESPONSE:` marker does not occur. -/
theorem searchFinalResponse_none_iff : ∀ (s : List Char),
    searchFinalResponse s = none ↔ containsSubCI s finalResponseLit = false
  | [] => by decide
  | c :: cs => by
    simp only [searchFinalResponse, containsSubCI]
    cases hsp : stripPreCI finalResponseLit (c :: cs) with
    | some r => simp [isPrefixCIL, hsp]
    | none => simp [isPrefixCIL, hsp, searchFinalResponse_none_iff cs]

/-- Claim C7 — the Delphi reflection parser: the decision is `REVISE` or
`AFFIRM` and defaults to `AFFIRM` when no `DECISION:` pattern matches; the
justification is truncated to 500 characters; when the (case-insensitive)
`FINAL RESPONSE:` marker is absent the final response is the entire raw text
(the member's answer is never lost); and the concrete spec examples parse as
stated, with the justification taken between the `JUSTIFICATION` marker and
the `FINAL RESPONSE:` marker. -/
theorem parse_delphi_response_contract (t : String) :
    ((parse_delphi_response t).1 = "REVISE" ∨ (parse_delphi_response t).1 = "AFFIRM") ∧
      (searchDecision t.data = none → (parse_delphi_response t).1 = "AFFIRM") ∧
      (parse_delphi_response t).2.1.length ≤ 500 ∧
      (containsSubCI t.data finalResponseLit = false → (parse_delphi_response t).2.2 = t) ∧
      parse_delphi_response
          "DECISION: [REVISE]\nJUSTIFICATION (2-3 sentences):\n Because reasons. \nFINAL RESPONSE:\nNew answer."
        = ("REVISE", "Because reasons.", "New answer.") ∧
      (parse_delphi_response "decision: revise, peers convinced me").1 = "REVISE" ∧
      parse_delphi_response "free-form reply with no markers"
        = ("AFFIRM", "No justification provided", "free-form reply with no markers") := by
  refine ⟨?_, ?_, ?_, ?_, by decide, by decide, by decide⟩
  · cases hd : searchDecision t.data with
    | none =>
      right
      simp [parse_delphi_response, hd]
    | some d =>
      rcases searchDecision_mem t.data d hd with h | h
      · left
        simp [parse_delphi_response, hd, h]
      · right
        simp [parse_delphi_response, hd, h]
  · intro hd
    simp [parse_delphi_response, hd]
  · have hlen : ∀ l : List Char, (String.mk (l.take 500)).length ≤ 500 := by
      intro l
      simp [String.length]
    cases hj : searchJustification t.data with
    | none =>
      simp only [parse_delphi_response, hj]
      decide
    | some cap =>
      have h2 := hlen (stripWs cap)
      simp only [parse_delphi_response, hj]
      exact h2
  · intro h
    have hn : searchFinalResponse t.data = none := (searchFinalResponse_none_iff t.data).2 h
    simp [parse_delphi_response, hn]

/-- Witness for C7: a reply without the `FINAL RESPONSE:` marker flows
through unchanged as the final response. -/
theorem parse_delphi_response_contract_witness :
    (parse_delphi_response "an answer without the marker").2.2 =
      "an answer without the marker" :=
  (parse_delphi_response_contract "an answer without the marker").2.2.2.1 (by decide)

/-! ## The disagreement detector (claim C8) -/

/-- Claim C8 — the disagreement detector flags a text iff some phrase of the
fixed explicit-disagreement list or some keyword of the fixed high-risk list
occurs case-insensitively; a text containing only `breach notification` is
flagged, and a text containing no keyword of either list is not. -/
theorem detect_material_disagreement_iff (t : String) :
    (detect_material_disagreement t = true ↔
        (∃ p ∈ explicitPhrases, containsSub (lowerStr t.data) p.data = true) ∨
          ∃ k ∈ highRiskTriggers, containsSub (lowerStr t.data) k.data = true) ∧
      detect_material_disagreement "We must consider Breach Notification timelines." = true ∧
      detect_material_disagreement "Everything looks fine; we are aligned and confident."
        = false := by
  refine ⟨?_, by decide, by decide⟩
  simp [detect_material_disagreement, List.any_eq_true]

/-- Witness for C8: an explicit-phrase text is flagged, via the iff. -/
theorem detect_material_disagreement_iff_witness :
    detect_material_disagreement "I strongly disagree with this plan." = true :=
  (detect_material_disagreement_iff "I strongly disagree with this plan.").1.2
    (Or.inl ⟨"strongly disagree", by decide, by decide⟩)

/-! ## The reflection round's outcomes (claim C9) -/

/-- Claim C9 — in reflection mode the Delphi round produces exactly one
outcome per Stage-1 member, aligned with the member order; each outcome is the
parse of that member's reflection reply, and a member whose reflection call
fails gets the pass-through outcome: decision `AFFIRM`, round-2 text equal to
round-1 text, the non-response justification, and no disagreement flag. -/
theorem stage1_5_reflection_outcomes (q : String) (s1 : List Stage1Result)
    (ms : List CouncilMember) (resps : List (Option String))
    (h1 : s1.length = ms.length) (h2 : resps.length = ms.length) :
    (stage1_5_delphi_reflection q s1 ms resps).1.length = ms.length ∧
      ∀ i (hm : i < ms.length)
        (hd : i < (stage1_5_delphi_reflection q s1 ms resps).1.length)
        (hs : i < s1.length) (hr : i < resps.length),
        (stage1_5_delphi_reflection q s1 ms resps).1[i] =
            delphiOutcome ms[i] s1[i] resps[i] ∧
          (resps[i] = none →
            (stage1_5_delphi_reflection q s1 ms resps).1[i] =
              ⟨ms[i].id, ms[i].model, s1[i].response, s1[i].response, "AFFIRM",
               "Model did not respond to reflection prompt", false⟩) := by
  constructor
  · simp only [stage1_5_delphi_reflection, List.length_map, List.length_zip]
    omega
  · intro i hm hd hs hr
    have hget : (stage1_5_delphi_reflection q s1 ms resps).1[i] =
        delphiOutcome ms[i] s1[i] resps[i] := by
      simp [stage1_5_delphi_reflection, List.getElem_map, List.getElem_zip]
    refine ⟨hget, ?_⟩
    intro hnone
    rw [hget, hnone]
    simp [delphiOutcome]

/-- Witness for C9: one member whose reflection call fails receives the
pass-through outcome. -/
theorem stage1_5_reflection_outcomes_witness :
    (stage1_5_delphi_reflection "q" [⟨"A", "m/one", "round one text"⟩]
        [⟨"A", "m/one", "Ethics Officer"⟩] [none]).1 =
      [⟨"A", "m/one", "round one text", "round one text", "AFFIRM",
        "Model did not respond to reflection prompt", false⟩] := by
  have h := stage1_5_reflection_outcomes "q" [⟨"A", "m/one", "round one text"⟩]
    [⟨"A", "m/one", "Ethics Officer"⟩] [none] (by decide) (by decide)
  have h0 := (h.2 0 (by decide) (by rw [h.1]; decide) (by decide) (by decide)).2 (by decide)
  refine List.ext_getElem (by simpa using h.1) ?_
  intro i hi1 hi2
  have hz : i = 0 := by
    simp at hi2
    omega
  subst hz
  simpa using h0

/-! ## Anonymity of prompts (claim C2) -/

/-- The anonymized blocks of the ranking prompt are determined by the member
ids (labels) and the response texts alone. -/
theorem zipBlocks_of_ids : ∀ (ms ms2 : List CouncilMember) (rs : List Stage1Result),
    ms.map (fun m => m.id) = ms2.map (fun m => m.id) →
    (ms.zip rs).map (fun p => p.1.label ++ ":\n" ++ p.2.response) =
      (ms2.zip rs).map (fun p => p.1.label ++ ":\n" ++ p.2.response)
  | [], ms2, rs => by
    intro h
    have : ms2 = [] := by
      cases ms2 with
      | nil => rfl
      | cons a l => simp at h
    subst this
    rfl
  | m :: ms, ms2, rs => by
    intro h
    cases ms2 with
    | nil => simp at h
    | cons m2 ms2t =>
      simp only [List.map_cons, List.cons.injEq] at h
      cases rs with
      | nil => rfl
      | cons r rst =>
        simp only [List.zip_cons_cons, List.map_cons, List.cons.injEq]
        refine ⟨by simp [CouncilMember.label, h.1], ?_⟩
        exact zipBlocks_of_ids ms ms2t rst h.2

/-- Claim C2 (amended) — the Stage-2 ranking prompt consumes Stage-1/1.5
results only through the member labels and response texts: it is invariant
under any change of the members' raw responder identifiers (and roles) that
keeps the labels fixed.  (The Stage-3 chairman prompt, by contrast, lists raw
responder identifiers — see the counterexample.) -/
theorem stage2_prompt_label_anonymity (q : String) (ms ms2 : List CouncilMember)
    (rs : List Stage1Result)
    (hid : ms.map (fun m => m.id) = ms2.map (fun m => m.id)) :
    rankingPromptOf q ms rs = rankingPromptOf q ms2 rs := by
  unfold rankingPromptOf responsesTextOf
  rw [zipBlocks_of_ids ms ms2 rs hid]

/-- Witness for the amended C2: changing a member's responder identifier
(keeping its label) leaves the concrete ranking prompt unchanged. -/
theorem stage2_prompt_label_anonymity_witness :
    rankingPromptOf "Q" [⟨"A", "alpha/one", "Red Team"⟩] [⟨"A", "alpha/one", "text"⟩] =
      rankingPromptOf "Q" [⟨"A", "beta/two", "Ethics Officer"⟩] [⟨"A", "alpha/one", "text"⟩] :=
  stage2_prompt_label_anonymity "Q" [⟨"A", "alpha/one", "Red Team"⟩]
    [⟨"A", "beta/two", "Ethics Officer"⟩] [⟨"A", "alpha/one", "text"⟩] (by decide)

set_option maxRecDepth 20000 in
/-- Claim C2 counterexample — the Stage-3 chairman prompt is *not* invariant
under a change of a member's raw responder identifier with label and response
text fixed: it embeds `Model: <identifier>` lines, so the raw identifier
reaches a prompt shown to a responder (the chairman). -/
theorem chairman_prompt_identifier_counterexample :
    chairmanPromptOf "Q" [⟨"A", "alpha/one", "the shared answer"⟩] [] none false ≠
      chairmanPromptOf "Q" [⟨"A", "beta/two", "the shared answer"⟩] [] none false := by
  decide

/-! ## Exclusion of failed responders (claim C3) -/

/-- A member of a zip arises at a common index of the two lists. -/
theorem mem_zip_idx {α β : Type} {a : α} {b : β} {l1 : List α} {l2 : List β}
    (h : (a, b) ∈ l1.zip l2) :
    ∃ j, ∃ (h1 : j < l1.length) (h2 : j < l2.length), l1[j] = a ∧ l2[j] = b := by
  obtain ⟨j, hj, hget⟩ := List.getElem_of_mem h
  have hj1 : j < l1.length := by
    simp only [List.length_zip] at hj
    omega
  have hj2 : j < l2.length := by
    simp only [List.length_zip] at hj
    omega
  rw [List.getElem_zip] at hget
  refine ⟨j, hj1, hj2, ?_, ?_⟩
  · simpa using congrArg Prod.fst hget
  · simpa using congrArg Prod.snd hget

/-- A responder whose Stage-1 call failed is not among the council members
(given pairwise-distinct configured identifiers). -/
theorem failed_model_not_in_members (models : List String) (s1resps : List (Option String))
    (hnodup : models.Nodup) (i : Nat) (hi : i < models.length)
    (hir : i < s1resps.length) (hfail : s1resps[i] = none) :
    models[i] ∉ (stage1_collect_responses models s1resps).2.map (fun m => m.model) := by
  intro hmem
  have hml := (stage1Aux_spec (models.zip s1resps) 0).1
  rw [show (stage1_collect_responses models s1resps).2 = (stage1Aux 0 (models.zip s1resps)).2
    from rfl, hml] at hmem
  obtain ⟨p, hp, hsome⟩ := List.mem_filterMap.1 hmem
  obtain ⟨p1, p2⟩ := p
  cases hp2 : p2 with
  | none =>
    rw [hp2] at hsome
    simp at hsome
  | some r =>
    subst hp2
    simp only [Option.map_some', Option.some.injEq] at hsome
    obtain ⟨j, hj1, hj2, hja, hjb⟩ := mem_zip_idx hp
    have hji : j = i := by
      have hgj : models.get ⟨j, hj1⟩ = models.get ⟨i, hi⟩ := by
        simp only [List.get_eq_getElem]
        rw [hja, hsome]
      have := List.nodup_iff_injective_get.1 hnodup hgj
      simpa using this
    subst hji
    rw [hjb] at hfail
    simp at hfail

/-- Recording preserves a key predicate when it holds of the inserted key. -/
theorem recordPos_keys (P : String → Prop) : ∀ (acc : List (String × List Nat)) (m : String)
    (pos : Nat), (∀ q ∈ acc, P q.1) → P m → ∀ q ∈ recordPos acc m pos, P q.1
  | [], m, pos => by
    intro hacc hm q hq
    simp only [recordPos, List.mem_singleton] at hq
    subst hq
    exact hm
  | a :: rest, m, pos => by
    intro hacc hm q hq
    simp only [recordPos] at hq
    by_cases hc : a.1 = m
    · rw [if_pos hc] at hq
      rcases List.mem_cons.1 hq with h1 | h2
      · subst h1
        exact hacc a (List.mem_cons_self a rest)
      · exact hacc q (List.mem_cons_of_mem a h2)
    · rw [if_neg hc] at hq
      rcases List.mem_cons.1 hq with h1 | h2
      · rw [h1]
        exact hacc a (List.mem_cons_self a rest)
      · exact recordPos_keys P rest m pos
          (fun q2 hq2 => hacc q2 (List.mem_cons_of_mem a hq2)) hm q h2

/-- All keys produced by the position-recording fold over one submission come
from the `response_mapping`. -/
theorem foldl_record_keys (mapping : List (String × RespMapEntry)) :
    ∀ (l : List (Nat × String)) (acc : List (String × List Nat)),
    (∀ q ∈ acc, q.1 ∈ mapping.map (fun p => p.2.model)) →
    ∀ q ∈ l.foldl (fun a p =>
        match lookupMap (stripLabel p.2) mapping with
        | some e => recordPos a e.model (p.1 + 1)
        | none => a) acc, q.1 ∈ mapping.map (fun p => p.2.model)
  | [], acc => by
    intro h q hq
    simpa using h q (by simpa using hq)
  | x :: xs, acc => by
    intro h q hq
    simp only [List.foldl_cons] at hq
    cases hlk : lookupMap (stripLabel x.2) mapping with
    | none =>
      simp only [hlk] at hq
      exact foldl_record_keys mapping xs acc h q hq
    | some e =>
      simp only [hlk] at hq
      refine foldl_record_keys mapping xs _ ?_ q hq
      intro q2 hq2
      refine recordPos_keys _ acc e.model (x.1 + 1) h ?_ q2 hq2
      simp only [lookupMap, Option.map_eq_some'] at hlk
      obtain ⟨pe, hpe, hpe2⟩ := hlk
      have hmem := List.mem_of_find?_eq_some hpe
      subst hpe2
      exact List.mem_map.2 ⟨pe, hmem, rfl⟩

/-- All keys of the accumulated `model_positions` come from the
`response_mapping`. -/
theorem model_positions_keys (mapping : List (String × RespMapEntry)) :
    ∀ (subs : List Stage2Result) (acc : List (String × List Nat)),
    (∀ q ∈ acc, q.1 ∈ mapping.map (fun p => p.2.model)) →
    ∀ q ∈ subs.foldl (recordSubmission mapping) acc, q.1 ∈ mapping.map (fun p => p.2.model)
  | [], acc => by
    intro h q hq
    simpa using h q (by simpa using hq)
  | sub :: rest, acc => by
    intro h q hq
    simp only [List.foldl_cons] at hq
    refine model_positions_keys mapping rest _ ?_ q hq
    intro q2 hq2
    exact foldl_record_keys mapping (effectiveParsed sub).enum acc h q2 hq2

/-- Every aggregate-ranking entry's model is a model of the
`response_mapping`. -/
theorem aggregate_models_sub (subs : List Stage2Result)
    (mapping : List (String × RespMapEntry)) :
    ∀ e ∈ calculate_aggregate_rankings subs mapping,
      e.model ∈ mapping.map (fun p => p.2.model) := by
  intro e he
  unfold calculate_aggregate_rankings at he
  rw [List.mem_insertionSort] at he
  obtain ⟨qe, hqe, he2⟩ := List.mem_filterMap.1 he
  split at he2
  · simp at he2
  · simp only [Option.some.injEq] at he2
    have hkey := model_positions_keys mapping subs [] (by simp) qe hqe
    rw [← he2]
    exact hkey

/-- Claim C3 (amended) — a responder whose Stage-1 call fails (in a
configuration of pairwise-distinct responder identifiers) is absent from the
Identity Registry: it has no council member, no `response_mapping` entry, no
`label_to_model` entry, and no aggregate-ranking entry.  (It may however
still appear in the Stage-2 results and hence in the chairman prompt's
rankings section, as a *ranker*, if its Stage-2 call succeeds — see the
counterexample.) -/
theorem failed_responder_excluded (models : List String) (s1resps : List (Option String))
    (q : String) (ranking_input : List Stage1Result) (s2resps : List (Option String))
    (hnodup : models.Nodup) (i : Nat) (hi : i < models.length)
    (hir : i < s1resps.length) (hfail : s1resps[i] = none) :
    models[i] ∉ (stage1_collect_responses models s1resps).2.map (fun m => m.model) ∧
      models[i] ∉ ((stage2_collect_rankings q models ranking_input
          (stage1_collect_responses models s1resps).2 s2resps).2.response_mapping).map
          (fun p => p.2.model) ∧
      models[i] ∉ ((stage2_collect_rankings q models ranking_input
          (stage1_collect_responses models s1resps).2 s2resps).2.label_to_model).map
          (fun p => p.2) ∧
      models[i] ∉ (calculate_aggregate_rankings
          (stage2_collect_rankings q models ranking_input
            (stage1_collect_responses models s1resps).2 s2resps).1
          (stage2_collect_rankings q models ranking_input
            (stage1_collect_responses models s1resps).2 s2resps).2.response_mapping).map
          (fun e => e.model) := by
  have h1 := failed_model_not_in_members models s1resps hnodup i hi hir hfail
  refine ⟨h1, ?_, ?_, ?_⟩
  · intro hmem
    apply h1
    simpa [stage2_collect_rankings, List.map_map, Function.comp] using hmem
  · intro hmem
    apply h1
    simpa [stage2_collect_rankings, List.map_map, Function.comp] using hmem
  · intro hmem
    obtain ⟨e, he, hemodel⟩ := List.mem_map.1 hmem
    have := aggregate_models_sub _ _ e he
    apply h1
    rw [← hemodel]
    simpa [stage2_collect_rankings, List.map_map, Function.comp] using this

/-- Witness for the amended C3: in a concrete two-responder session whose
second responder fails Stage 1, that responder has no council member. -/
theorem failed_responder_excluded_witness :
    "m/two" ∉ (stage1_collect_responses ["m/one", "m/two"]
      [some "ok", none]).2.map (fun m => m.model) :=
  (failed_responder_excluded ["m/one", "m/two"] [some "ok", none] "Q"
    (stage1_collect_responses ["m/one", "m/two"] [some "ok", none]).1
    [some "r", some "r"] (by decide) 1 (by decide) (by decide) (by decide)).1

/-- Claim C3 counterexample — a responder that fails Stage 1 but answers the
Stage-2 ranking call *does* appear in the Stage-2 results (and hence in a
later-stage output), contradicting the claim's "never appears in any
later-stage output": here `m/two` fails Stage 1 (the registry holds only
`m/one`) yet contributes a Stage-2 ranking entry. -/
theorem failed_responder_in_stage2_counterexample :
    (stage1_collect_responses ["m/one", "m/two"] [some "ok", none]).2.map
        (fun m => m.model) = ["m/one"] ∧
      "m/two" ∈ ((stage2_collect_rankings "Q" ["m/one", "m/two"]
          (stage1_collect_responses ["m/one", "m/two"] [some "ok", none]).1
          (stage1_collect_responses ["m/one", "m/two"] [some "ok", none]).2
          [some "FINAL RANKING:\n1. Response A",
           some "FINAL RANKING:\n1. Response A"]).1).map (fun r => r.model) := by
  refine ⟨by decide, by decide⟩

/-! ## Escalation only from the reflection round (claim C10) -/

set_option maxRecDepth 4000 in
/-- Claim C10 — with the Delphi feature flag disabled and at least one
Stage-1 success, the session-level `needs_human_review` flag is `false` both
in the Stage-3 synthesis object and in the session metadata; the chairman
prompt is exactly the core prompt plus the closing line, without the
escalation section, which is appended only when the flag is set (so prompts
with and without escalation always differ). -/
theorem delphi_disabled_no_escalation (models : List String) (chairman : String)
    (q : String) (s1resps dresps s2resps : List (Option String)) (chairResp : Option String)
    (hsucc : (stage1_collect_responses models s1resps).1.isEmpty = false) :
    (run_full_council models chairman false q s1resps dresps s2resps
        chairResp).stage3.needs_human_review = some false ∧
      ((run_full_council models chairman false q s1resps dresps s2resps
          chairResp).metadata.map (fun md => md.needs_human_review)) = some false ∧
      (∀ (q2 : String) (s1 : List Stage1Result) (s2 : List Stage2Result)
          (d : Option (List DelphiResult)),
        chairmanPromptOf q2 s1 s2 d false =
          chairmanPromptCore q2 s1 s2 d ++ "\nProvide your final synthesis now.") ∧
      (∀ (q2 : String) (s1 : List Stage1Result) (s2 : List Stage2Result)
          (d : Option (List DelphiResult)),
        chairmanPromptOf q2 s1 s2 d true ≠ chairmanPromptOf q2 s1 s2 d false) := by
  refine ⟨?_, ?_, ?_, ?_⟩
  · simp only [run_full_council, hsucc, Bool.false_eq_true, if_false]
    cases chairResp <;> simp [stage3_synthesize_final]
  · simp [run_full_council, hsucc]
  · intro q2 s1 s2 d
    simp [chairmanPromptOf]
  · intro q2 s1 s2 d heq
    have hlen := congrArg String.length heq
    simp only [chairmanPromptOf, Bool.false_eq_true, if_false, if_true,
      String.length_append] at hlen
    have hpos : 0 < escalationSection.length := by decide
    omega

/-- Witness for C10: a concrete one-responder run with Delphi disabled keeps
both escalation flags `false`. -/
theorem delphi_disabled_no_escalation_witness :
    (run_full_council ["m/one"] "m/chair" false "Q" [some "answer"] [] [some "text"]
        (some "synthesis")).stage3.needs_human_review = some false ∧
      ((run_full_council ["m/one"] "m/chair" false "Q" [some "answer"] [] [some "text"]
          (some "synthesis")).metadata.map (fun md => md.needs_human_review)) = some false := by
  have h := delphi_disabled_no_escalation ["m/one"] "m/chair" "Q" [some "answer"] []
    [some "text"] (some "synthesis") (by decide)
  exact ⟨h.1, h.2.1⟩

/-! ## The end-to-end scenario (claim C6) -/

/-- Claim C6 — three responders all succeed Stage 1 with labels `A`/`B`/`C`,
Delphi is disabled, two submissions rank `[B, A, C]` and `[A, B, C]` (so
`B`'s responder is first-seen during position recording) and one is
unparseable: the aggregate ranking puts the responder of label `B` first with
mean 1.5, the responder of label `A` second with mean 1.5 (the tie broken by
first-seen order), and the responder of label `C` third with mean 3.0, and
`needs_human_review` is `false` in the Stage-3 object and the metadata. -/
theorem end_to_end_scenario :
    ((run_full_council ["m/one", "m/two", "m/three"] "m/chair" false "Q"
        [some "ans one", some "ans two", some "ans three"] []
        [some "FINAL RANKING:\n1. Response B\n2. Response A\n3. Response C",
         some "FINAL RANKING:\n1. Response A\n2. Response B\n3. Response C",
         some "totally unparseable words"]
        (some "chairman synthesis")).metadata.map (fun md => md.aggregate_rankings)) =
        some [⟨"m/two", "Council Member", Rat.divInt 3 2, 2⟩,
              ⟨"m/one", "Council Member", Rat.divInt 3 2, 2⟩,
              ⟨"m/three", "Council Member", 3, 2⟩] ∧
      ((run_full_council ["m/one", "m/two", "m/three"] "m/chair" false "Q"
        [some "ans one", some "ans two", some "ans three"] []
        [some "FINAL RANKING:\n1. Response B\n2. Response A\n3. Response C",
         some "FINAL RANKING:\n1. Response A\n2. Response B\n3. Response C",
         some "totally unparseable words"]
        (some "chairman synthesis")).metadata.map (fun md => md.label_to_model)) =
        some [("Response A", "m/one"), ("Response B", "m/two"),
              ("Response C", "m/three")] ∧
      (run_full_council ["m/one", "m/two", "m/three"] "m/chair" false "Q"
        [some "ans one", some "ans two", some "ans three"] []
        [some "FINAL RANKING:\n1. Response B\n2. Response A\n3. Response C",
         some "FINAL RANKING:\n1. Response A\n2. Response B\n3. Response C",
         some "totally unparseable words"]
        (some "chairman synthesis")).stage3.needs_human_review = some false ∧
      ((run_full_council ["m/one", "m/two", "m/three"] "m/chair" false "Q"
        [some "ans one", some "ans two", some "ans three"] []
        [some "FINAL RANKING:\n1. Response B\n2. Response A\n3. Response C",
         some "FINAL RANKING:\n1. Response A\n2. Response B\n3. Response C",
         some "totally unparseable words"]
        (some "chairman synthesis")).metadata.map (fun md => md.needs_human_review)) =
        some false := by
  refine ⟨by decide, by decide, by decide, by decide⟩

/-! ## The rank aggregator (claim C5)

Spec-side declarative reformulation of §4.5: per-responder recorded
positions, first-seen order, and the aggregate entries, written directly as
comprehensions over the submissions rather than as the imperative fold.
-/

/-- The positions recorded for responder `m` by one submission: 1-based
indices of the labels that map to `m`, counting every parsed label. -/
def subPositionsFor (mapping : List (String × RespMapEntry)) (m : String)
    (sub : Stage2Result) : List Nat :=
  (effectiveParsed sub).enum.filterMap (fun p =>
    match lookupMap (stripLabel p.2) mapping with
    | some e => if e.model = m then some (p.1 + 1) else none
    | none => none)

/-- All positions recorded for responder `m` across the submissions, in
processing order. -/
def positionsFor (mapping : List (String × RespMapEntry)) (subs : List Stage2Result)
    (m : String) : List Nat :=
  subs.flatMap (fun sub => subPositionsFor mapping m sub)

/-- The sequence of responder models hit by position recording, in
processing order (with repetitions). -/
def mentionSeq (mapping : List (String × RespMapEntry)) (subs : List Stage2Result) :
    List String :=
  subs.flatMap (fun sub => (effectiveParsed sub).enum.filterMap (fun p =>
    (lookupMap (stripLabel p.2) mapping).map (fun e => e.model)))

/-- Keep the first occurrence of each element. -/
def firstDedup (l : List String) : List String :=
  l.foldl (fun ks m => if m ∈ ks then ks else ks ++ [m]) []

/-- The responders in first-seen order of position recording. -/
def firstSeenModels (mapping : List (String × RespMapEntry)) (subs : List Stage2Result) :
    List String :=
  firstDedup (mentionSeq mapping subs)

/-- The responders that receive an aggregate entry, in first-seen order. -/
def rankedModels (mapping : List (String × RespMapEntry)) (subs : List Stage2Result) :
    List String :=
  (firstSeenModels mapping subs).filter (fun m => !(positionsFor mapping subs m).isEmpty)

/-- The aggregate entries as the spec words them: one entry per responder
with at least one recorded position, carrying the 2-decimal mean and the
count, in first-seen order (before the final sort). -/
def specAggregate (mapping : List (String × RespMapEntry)) (subs : List Stage2Result) :
    List AggregateEntry :=
  (rankedModels mapping subs).map (fun m =>
    ⟨m, roleForModel mapping m, round2 (meanOfPositions (positionsFor mapping subs m)),
     (positionsFor mapping subs m).length⟩)

/-- The positions stored under key `m` in the accumulated `model_positions`
association list (empty when the key is absent). -/
def posOf (m : String) (acc : List (String × List Nat)) : List Nat :=
  match acc.find? (fun q => q.1 = m) with
  | some q => q.2
  | none => []

/-- The keys of the accumulated `model_positions`, in insertion order. -/
def keysOf (acc : List (String × List Nat)) : List String := acc.map (fun q => q.1)

/-- First-seen index of a string in a list. -/
def idxOfS (m : String) : List String → Nat
  | [] => 0
  | x :: xs => if x = m then 0 else idxOfS m xs + 1

/-- How `recordPos` changes the stored positions of each key. -/
theorem posOf_recordPos (m m2 : String) (p : Nat) : ∀ (acc : List (String × List Nat)),
    posOf m (recordPos acc m2 p) =
      if m2 = m then posOf m acc ++ [p] else posOf m acc
  | [] => by
    by_cases h : m2 = m <;> simp [recordPos, posOf, List.find?, h]
  | a :: rest => by
    by_cases ham : a.1 = m2
    · by_cases hm : m2 = m
      · subst hm
        simp [recordPos, posOf, List.find?, ham, if_pos ham]
      · have ham2 : (a.1 = m) = False := by
          simp only [eq_iff_iff, iff_false]
          intro hc
          exact hm (ham ▸ hc)
        simp [recordPos, posOf, List.find?, if_pos ham, ham2, hm]
    · by_cases ham2 : a.1 = m
      · have hm : (m2 = m) = False := by
          simp only [eq_iff_iff, iff_false]
          intro hc
          exact ham (hc ▸ ham2)
        have hm2 : (m = m2) = False := by
          simp only [eq_iff_iff, iff_false]
          intro hc
          exact ham (ham2.trans hc)
        simp [recordPos, posOf, List.find?, if_neg ham, ham2, hm, hm2]
      · have ih := posOf_recordPos m m2 p rest
        by_cases hm : m2 = m <;>
          simp [recordPos, posOf, List.find?, if_neg ham, ham2, hm] <;>
          simpa [posOf, hm] using ih

/-- The inner fold of `recordSubmission`, characterised per responder. -/
theorem posOf_foldl_record (mapping : List (String × RespMapEntry)) (m : String) :
    ∀ (l : List (Nat × String)) (acc : List (String × List Nat)),
    posOf m (l.foldl (fun a p =>
        match lookupMap (stripLabel p.2) mapping with
        | some e => recordPos a e.model (p.1 + 1)
        | none => a) acc) =
      posOf m acc ++ l.filterMap (fun p =>
        match lookupMap (stripLabel p.2) mapping with
        | some e => if e.model = m then some (p.1 + 1) else none
        | none => none)
  | [], acc => by simp
  | x :: xs, acc => by
    simp only [List.foldl_cons, List.filterMap_cons]
    cases hlk : lookupMap (stripLabel x.2) mapping with
    | none =>
      simp only [hlk]
      exact posOf_foldl_record mapping m xs acc
    | some e =>
      simp only [hlk]
      by_cases hem : e.model = m
      · rw [if_pos hem]
        rw [posOf_foldl_record mapping m xs (recordPos acc e.model (x.1 + 1))]
        rw [posOf_recordPos m e.model (x.1 + 1) acc, if_pos hem]
        simp
      · rw [if_neg hem]
        rw [posOf_foldl_record mapping m xs (recordPos acc e.model (x.1 + 1))]
        rw [posOf_recordPos m e.model (x.1 + 1) acc, if_neg hem]

/-- The outer fold over the submissions, characterised per responder. -/
theorem posOf_model_positions (mapping : List (String × RespMapEntry)) (m : String) :
    ∀ (subs : List Stage2Result) (acc : List (String × List Nat)),
    posOf m (subs.foldl (recordSubmission mapping) acc) =
      posOf m acc ++ positionsFor mapping subs m
  | [], acc => by simp [positionsFor]
  | sub :: rest, acc => by
    simp only [List.foldl_cons, positionsFor, List.flatMap_cons]
    rw [posOf_model_positions mapping m rest (recordSubmission mapping acc sub)]
    rw [show recordSubmission mapping acc sub = (effectiveParsed sub).enum.foldl (fun a p =>
        match lookupMap (stripLabel p.2) mapping with
        | some e => recordPos a e.model (p.1 + 1)
        | none => a) acc from rfl]
    rw [posOf_foldl_record mapping m (effectiveParsed sub).enum acc]
    simp [positionsFor, subPositionsFor, List.append_assoc]

/-- How `recordPos` changes the key list: append the key if new. -/
theorem keysOf_recordPos (m : String) (p : Nat) : ∀ (acc : List (String × List Nat)),
    keysOf (recordPos acc m p) =
      if m ∈ keysOf acc then keysOf acc else keysOf acc ++ [m]
  | [] => by simp [recordPos, keysOf]
  | a :: rest => by
    by_cases ham : a.1 = m
    · simp [recordPos, keysOf, if_pos ham, ham]
    · have ih := keysOf_recordPos m p rest
      rw [show keysOf (recordPos rest m p) = List.map (fun q => q.1) (recordPos rest m p)
        from rfl] at ih
      by_cases hm : m ∈ keysOf rest
      · have hm' : m ∈ List.map (fun q => q.1) rest := hm
        simp only [recordPos, if_neg ham, keysOf, List.map_cons]
        rw [ih]
        rw [if_pos hm, if_pos (List.mem_cons_of_mem a.1 hm')]
        rfl
      · have hm' : m ∉ List.map (fun q => q.1) rest := hm
        have hse : m ∉ a.1 :: List.map (fun q => q.1) rest := by
          intro hc
          rcases List.mem_cons.1 hc with h1 | h2
          · exact ham h1.symm
          · exact hm' h2
        simp only [recordPos, if_neg ham, keysOf, List.map_cons]
        rw [ih]
        rw [if_neg hm, if_neg hse]
        rfl

/-- The inner fold of `recordSubmission`, characterised on keys: it performs
first-seen deduplicating insertion of the mentioned models. -/
theorem keysOf_foldl_record (mapping : List (String × RespMapEntry)) :
    ∀ (l : List (Nat × String)) (acc : List (String × List Nat)),
    keysOf (l.foldl (fun a p =>
        match lookupMap (stripLabel p.2) mapping with
        | some e => recordPos a e.model (p.1 + 1)
        | none => a) acc) =
      (l.filterMap (fun p => (lookupMap (stripLabel p.2) mapping).map (fun e => e.model))).foldl
        (fun ks m => if m ∈ ks then ks else ks ++ [m]) (keysOf acc)
  | [], acc => by simp
  | x :: xs, acc => by
    simp only [List.foldl_cons, List.filterMap_cons]
    cases hlk : lookupMap (stripLabel x.2) mapping with
    | none =>
      simp only [hlk, Option.map_none']
      exact keysOf_foldl_record mapping xs acc
    | some e =>
      simp only [hlk, Option.map_some']
      rw [keysOf_foldl_record mapping xs (recordPos acc e.model (x.1 + 1))]
      rw [keysOf_recordPos e.model (x.1 + 1) acc]
      simp only [List.foldl_cons]

/-- The keys of the accumulated `model_positions` are the first-seen
deduplication of the mentioned models. -/
theorem keysOf_model_positions (mapping : List (String × RespMapEntry)) :
    ∀ (subs : List Stage2Result) (acc : List (String × List Nat)),
    keysOf (subs.foldl (recordSubmission mapping) acc) =
      (mentionSeq mapping subs).foldl
        (fun ks m => if m ∈ ks then ks else ks ++ [m]) (keysOf acc)
  | [], acc => by simp [mentionSeq]
  | sub :: rest, acc => by
    simp only [List.foldl_cons, mentionSeq, List.flatMap_cons, List.foldl_append]
    rw [keysOf_model_positions mapping rest (recordSubmission mapping acc sub)]
    rw [show recordSubmission mapping acc sub = (effectiveParsed sub).enum.foldl (fun a p =>
        match lookupMap (stripLabel p.2) mapping with
        | some e => recordPos a e.model (p.1 + 1)
        | none => a) acc from rfl]
    rw [keysOf_foldl_record mapping (effectiveParsed sub).enum acc]
    rfl

/-- First-seen deduplicating insertion preserves `Nodup`. -/
theorem nodup_dedupFold : ∀ (l ks : List String), ks.Nodup →
    (l.foldl (fun ks m => if m ∈ ks then ks else ks ++ [m]) ks).Nodup
  | [], ks => fun h => h
  | x :: xs, ks => by
    intro h
    simp only [List.foldl_cons]
    by_cases hx : x ∈ ks
    · rw [if_pos hx]
      exact nodup_dedupFold xs ks h
    · rw [if_neg hx]
      refine nodup_dedupFold xs (ks ++ [x]) ?_
      simp [List.nodup_append, h, hx]

/-- Membership through first-seen deduplicating insertion. -/
theorem mem_dedupFold : ∀ (l ks : List String) (x : String),
    x ∈ l.foldl (fun ks m => if m ∈ ks then ks else ks ++ [m]) ks ↔ x ∈ ks ∨ x ∈ l
  | [], ks, x => by simp
  | m :: xs, ks, x => by
    simp only [List.foldl_cons]
    by_cases hm : m ∈ ks
    · rw [if_pos hm, mem_dedupFold xs ks x]
      constructor
      · rintro (h | h)
        · exact Or.inl h
        · exact Or.inr (List.mem_cons_of_mem m h)
      · rintro (h | h)
        · exact Or.inl h
        · rcases List.mem_cons.1 h with h1 | h2
          · exact Or.inl (h1 ▸ hm)
          · exact Or.inr h2
    · rw [if_neg hm, mem_dedupFold xs (ks ++ [m]) x]
      simp only [List.mem_append, List.mem_singleton, List.mem_cons]
      tauto

/-- In an association list with distinct keys, `posOf` recovers each entry's
stored positions. -/
theorem posOf_mem : ∀ (mp : List (String × List Nat)), (keysOf mp).Nodup →
    ∀ q ∈ mp, posOf q.1 mp = q.2
  | [] => by
    intro _
    simp
  | a :: rest => by
    intro hnd q hq
    have hpair : a.1 ∉ List.map (fun q => q.1) rest ∧
        (List.map (fun q => q.1) rest).Nodup := List.nodup_cons.1 hnd
    have hna : a.1 ∉ keysOf rest := hpair.1
    rcases List.mem_cons.1 hq with h1 | h2
    · subst h1
      simp [posOf, List.find?]
    · have hq1 : q.1 ∈ keysOf rest := List.mem_map.2 ⟨q, h2, rfl⟩
      have hne : (a.1 = q.1) = False := by
        simp only [eq_iff_iff, iff_false]
        intro hc
        exact hna (hc ▸ hq1)
      have ih := posOf_mem rest hpair.2 q h2
      simpa [posOf, List.find?, hne] using ih

/-- The entry-building `filterMap` over a distinct-key association list is
the comprehension over its keys with non-empty positions. -/
theorem filterMap_entries (F : String → List Nat → AggregateEntry) :
    ∀ (mp : List (String × List Nat)), (keysOf mp).Nodup →
    mp.filterMap (fun q => if q.2.isEmpty then none else some (F q.1 q.2)) =
      ((keysOf mp).filter (fun m => !(posOf m mp).isEmpty)).map (fun m => F m (posOf m mp))
  | [] => by
    intro _
    rfl
  | a :: rest => by
    intro hnd
    have hpair : a.1 ∉ List.map (fun q => q.1) rest ∧
        (List.map (fun q => q.1) rest).Nodup := List.nodup_cons.1 hnd
    have hna : a.1 ∉ keysOf rest := hpair.1
    have hrest : (keysOf rest).Nodup := hpair.2
    have hpos_a : posOf a.1 (a :: rest) = a.2 := by
      simp [posOf, List.find?]
    have hpos_tail : ∀ m ∈ keysOf rest, posOf m (a :: rest) = posOf m rest := by
      intro m hm
      have hne : (a.1 = m) = False := by
        simp only [eq_iff_iff, iff_false]
        intro hc
        exact hna (hc ▸ hm)
      simp [posOf, List.find?, hne]
    have hfilter : (keysOf rest).filter (fun m => !(posOf m (a :: rest)).isEmpty) =
        (keysOf rest).filter (fun m => !(posOf m rest).isEmpty) := by
      refine List.filter_congr ?_
      intro m hm
      rw [hpos_tail m hm]
    have hmap : ∀ (L : List String), (∀ m ∈ L, m ∈ keysOf rest) →
        L.map (fun m => F m (posOf m (a :: rest))) = L.map (fun m => F m (posOf m rest)) := by
      intro L hL
      refine List.map_congr_left ?_
      intro m hm
      rw [hpos_tail m (hL m hm)]
    have ih := filterMap_entries F rest hrest
    simp only [List.filterMap_cons, keysOf, List.map_cons] at ih ⊢
    by_cases hae : a.2.isEmpty
    · simp only [hae, if_true, List.filter_cons]
      rw [show (!(posOf a.1 (a :: rest)).isEmpty) = false by simp [hpos_a, hae]]
      simp only [Bool.false_eq_true, if_false]
      rw [show (keysOf rest).filter (fun m => !(posOf m (a :: rest)).isEmpty) =
          (List.map (fun q => q.1) rest).filter (fun m => !(posOf m (a :: rest)).isEmpty)
        from rfl] at hfilter
      rw [hfilter]
      rw [hmap _ (fun m hm => (List.mem_filter.1 hm).1)]
      exact ih
    · simp only [hae, Bool.false_eq_true, if_false, List.filter_cons]
      rw [show (!(posOf a.1 (a :: rest)).isEmpty) = true by simp [hpos_a, hae]]
      simp only [if_true, List.map_cons]
      rw [hpos_a]
      congr 1
      rw [show (keysOf rest).filter (fun m => !(posOf m (a :: rest)).isEmpty) =
          (List.map (fun q => q.1) rest).filter (fun m => !(posOf m (a :: rest)).isEmpty)
        from rfl] at hfilter
      rw [hfilter]
      rw [hmap _ (fun m hm => (List.mem_filter.1 hm).1)]
      exact ih

/-- The sort key with lexicographic first-seen tie-break. -/
def lexEntry (rk : AggregateEntry → Nat) (a b : AggregateEntry) : Prop :=
  a.average_rank < b.average_rank ∨ (a.average_rank = b.average_rank ∧ rk a < rk b)

/-- Inserting an element whose first-seen rank is below every element of a
lex-sorted list (as `list.sort` insertion does, placing it before equal keys)
keeps the list lex-sorted. -/
theorem pairwise_orderedInsert_lex (rk : AggregateEntry → Nat) (e : AggregateEntry) :
    ∀ (l : List AggregateEntry), List.Pairwise (lexEntry rk) l →
    (∀ y ∈ l, rk e < rk y) →
    List.Pairwise (lexEntry rk)
      (List.orderedInsert (fun a b => a.average_rank ≤ b.average_rank) e l)
  | [] => by
    intro _ _
    simp [List.orderedInsert, List.Pairwise.nil]
  | x :: xs => by
    intro hl he
    simp only [List.orderedInsert]
    by_cases hc : e.average_rank ≤ x.average_rank
    · rw [if_pos hc]
      refine List.Pairwise.cons ?_ hl
      intro z hz
      rcases List.mem_cons.1 hz with h1 | h2
      · rw [h1]
        rcases lt_or_eq_of_le hc with h | h
        · exact Or.inl h
        · exact Or.inr ⟨h, he x (List.mem_cons_self _ _)⟩
      · have hxz := (List.pairwise_cons.1 hl).1 z h2
        have hxz2 : x.average_rank ≤ z.average_rank := by
          rcases hxz with h | h
          · exact le_of_lt h
          · exact le_of_eq h.1
        rcases lt_or_eq_of_le (le_trans hc hxz2) with h | h
        · exact Or.inl h
        · exact Or.inr ⟨h, he z (List.mem_cons_of_mem _ h2)⟩
    · rw [if_neg hc]
      have hxe : x.average_rank < e.average_rank := lt_of_not_le hc
      refine List.Pairwise.cons ?_ ?_
      · intro z hz
        rcases (List.mem_orderedInsert _).1 hz with h1 | h2
        · rw [h1]
          exact Or.inl hxe
        · exact (List.pairwise_cons.1 hl).1 z h2
      · exact pairwise_orderedInsert_lex rk e xs (List.pairwise_cons.1 hl).2
          (fun y hy => he y (List.mem_cons_of_mem _ hy))

/-- Stable insertion sort by `average_rank` of a list with strictly
increasing first-seen ranks is lex-sorted: ascending means, ties in
first-seen order. -/
theorem pairwise_insertionSort_lex (rk : AggregateEntry → Nat) :
    ∀ (l : List AggregateEntry), List.Pairwise (fun a b => rk a < rk b) l →
    List.Pairwise (lexEntry rk)
      (List.insertionSort (fun a b => a.average_rank ≤ b.average_rank) l)
  | [] => by
    intro _
    simp [List.insertionSort]
  | x :: xs => by
    intro h
    simp only [List.insertionSort]
    have hpair := List.pairwise_cons.1 h
    refine pairwise_orderedInsert_lex rk x _ (pairwise_insertionSort_lex rk xs hpair.2) ?_
    intro y hy
    exact hpair.1 y ((List.mem_insertionSort _).1 hy)

/-- A duplicate-free list is strictly sorted by first-seen index within
itself. -/
theorem pairwise_idxOfS : ∀ (L : List String), L.Nodup →
    List.Pairwise (fun a b => idxOfS a L < idxOfS b L) L
  | [] => by
    intro _
    simp
  | x :: xs => by
    intro hnd
    have hx : x ∉ xs := (List.nodup_cons.1 hnd).1
    have hxs : xs.Nodup := (List.nodup_cons.1 hnd).2
    refine List.Pairwise.cons ?_ ?_
    · intro b hb
      have hbx : ¬x = b := fun hc => hx (hc ▸ hb)
      have h0 : idxOfS x (x :: xs) = 0 := by simp [idxOfS]
      have hb2 : idxOfS b (x :: xs) = idxOfS b xs + 1 := by simp [idxOfS, hbx]
      rw [h0, hb2]
      omega
    · refine (pairwise_idxOfS xs hxs).imp_of_mem ?_
      intro a b ha hb hab
      have hxa : ¬x = a := fun hc => hx (hc ▸ ha)
      have hxb : ¬x = b := fun hc => hx (hc ▸ hb)
      have ha2 : idxOfS a (x :: xs) = idxOfS a xs + 1 := by simp [idxOfS, hxa]
      have hb2 : idxOfS b (x :: xs) = idxOfS b xs + 1 := by simp [idxOfS, hxb]
      rw [ha2, hb2]
      omega

/-- A responder with a recorded position was mentioned. -/
theorem mem_mention_of_positions (mapping : List (String × RespMapEntry))
    (subs : List Stage2Result) (m : String)
    (h : positionsFor mapping subs m ≠ []) : m ∈ mentionSeq mapping subs := by
  obtain ⟨pos, hpos⟩ := List.exists_mem_of_ne_nil _ h
  obtain ⟨sub, hsub, hpos2⟩ := List.mem_flatMap.1 hpos
  obtain ⟨p, hp, hfp⟩ := List.mem_filterMap.1 hpos2
  refine List.mem_flatMap.2 ⟨sub, hsub, ?_⟩
  refine List.mem_filterMap.2 ⟨p, hp, ?_⟩
  cases hlk : lookupMap (stripLabel p.2) mapping with
  | none =>
    rw [hlk] at hfp
    simp at hfp
  | some e =>
    simp only [hlk] at hfp
    by_cases hem : e.model = m
    · simp [hlk, hem]
    · rw [if_neg hem] at hfp
      simp at hfp

/-- Claim C5 — the rank aggregator is the pure spec function of the ranking
submissions and the label→responder map: (1) it equals the stable ascending
`average_rank` sort of one entry per responder in first-seen order, each
carrying the 2-decimal mean and the contributing count; (2) a responder has
an entry iff it has at least one recorded position (1-based label positions
mapped through the label map, unmapped labels skipped); (3) every entry's
mean and count are those of the responder's recorded positions; (4) the
result is ascending by `average_rank`; (5) with ties broken stably by
first-seen order during position recording. -/
theorem calculate_aggregate_rankings_spec (subs : List Stage2Result)
    (mapping : List (String × RespMapEntry)) :
    calculate_aggregate_rankings subs mapping =
        List.insertionSort (fun a b => a.average_rank ≤ b.average_rank)
          (specAggregate mapping subs) ∧
      (∀ m, (∃ e ∈ calculate_aggregate_rankings subs mapping, e.model = m) ↔
        positionsFor mapping subs m ≠ []) ∧
      (∀ e ∈ calculate_aggregate_rankings subs mapping,
        e.average_rank = round2 (meanOfPositions (positionsFor mapping subs e.model)) ∧
          e.rankings_count = (positionsFor mapping subs e.model).length) ∧
      List.Pairwise (fun a b => a.average_rank ≤ b.average_rank)
        (calculate_aggregate_rankings subs mapping) ∧
      List.Pairwise (lexEntry (fun e => idxOfS e.model (rankedModels mapping subs)))
        (calculate_aggregate_rankings subs mapping) := by
  have hkeys : keysOf (subs.foldl (recordSubmission mapping) []) =
      firstSeenModels mapping subs := by
    have h := keysOf_model_positions mapping subs []
    simpa [keysOf, firstSeenModels, firstDedup] using h
  have hnodupKeys : (keysOf (subs.foldl (recordSubmission mapping) [])).Nodup := by
    rw [hkeys]
    simpa [firstSeenModels, firstDedup] using
      nodup_dedupFold (mentionSeq mapping subs) [] (by simp)
  have hpos : ∀ m, posOf m (subs.foldl (recordSubmission mapping) []) =
      positionsFor mapping subs m := by
    intro m
    have h := posOf_model_positions mapping m subs []
    simpa [posOf] using h
  have hpre : (subs.foldl (recordSubmission mapping) []).filterMap (fun q =>
      if q.2.isEmpty then none
      else some (⟨q.1, roleForModel mapping q.1, round2 (meanOfPositions q.2),
        q.2.length⟩ : AggregateEntry)) = specAggregate mapping subs := by
    rw [filterMap_entries (fun m ps =>
      ⟨m, roleForModel mapping m, round2 (meanOfPositions ps), ps.length⟩) _ hnodupKeys]
    rw [hkeys]
    unfold specAggregate rankedModels
    rw [List.filter_congr (fun m _ => by rw [hpos m])]
    refine List.map_congr_left ?_
    intro m hm
    rw [hpos m]
  have hcalc : calculate_aggregate_rankings subs mapping =
      List.insertionSort (fun a b => a.average_rank ≤ b.average_rank)
        (specAggregate mapping subs) := by
    simp only [calculate_aggregate_rankings]
    rw [hpre]
  have hnodupRanked : (rankedModels mapping subs).Nodup := by
    have h1 : (firstSeenModels mapping subs).Nodup := by
      simpa [firstSeenModels, firstDedup] using
        nodup_dedupFold (mentionSeq mapping subs) [] (by simp)
    exact h1.filter _
  have hpw0 : List.Pairwise (fun a b =>
      idxOfS a.model (rankedModels mapping subs) <
        idxOfS b.model (rankedModels mapping subs)) (specAggregate mapping subs) := by
    unfold specAggregate
    rw [List.pairwise_map]
    refine (pairwise_idxOfS (rankedModels mapping subs) hnodupRanked).imp_of_mem ?_
    intro a b ha hb hab
    simpa using hab
  have hlex : List.Pairwise (lexEntry (fun e => idxOfS e.model (rankedModels mapping subs)))
      (calculate_aggregate_rankings subs mapping) := by
    rw [hcalc]
    exact pairwise_insertionSort_lex _ (specAggregate mapping subs) hpw0
  refine ⟨hcalc, ?_, ?_, ?_, hlex⟩
  · intro m
    constructor
    · rintro ⟨e, he, hem⟩
      rw [hcalc] at he
      have he2 := (List.mem_insertionSort _).1 he
      unfold specAggregate at he2
      obtain ⟨m2, hm2, hFe⟩ := List.mem_map.1 he2
      have hm2m : m2 = m := by
        rw [← hem, ← hFe]
      subst hm2m
      have hfl := (List.mem_filter.1 hm2).2
      intro hnil
      rw [hnil] at hfl
      simp at hfl
    · intro hne
      have hmention := mem_mention_of_positions mapping subs m hne
      have hfs : m ∈ firstSeenModels mapping subs := by
        simpa [firstSeenModels, firstDedup] using
          (mem_dedupFold (mentionSeq mapping subs) [] m).2 (Or.inr hmention)
      have hEmp : (positionsFor mapping subs m).isEmpty = false := by
        cases hI : (positionsFor mapping subs m).isEmpty
        · rfl
        · exact absurd (List.isEmpty_iff.1 hI) hne
      have hranked : m ∈ rankedModels mapping subs :=
        List.mem_filter.2 ⟨hfs, by rw [hEmp]; rfl⟩
      refine ⟨⟨m, roleForModel mapping m,
        round2 (meanOfPositions (positionsFor mapping subs m)),
        (positionsFor mapping subs m).length⟩, ?_, rfl⟩
      rw [hcalc]
      refine (List.mem_insertionSort _).2 ?_
      unfold specAggregate
      exact List.mem_map.2 ⟨m, hranked, rfl⟩
  · intro e he
    rw [hcalc] at he
    have he2 := (List.mem_insertionSort _).1 he
    unfold specAggregate at he2
    obtain ⟨m2, hm2, hFe⟩ := List.mem_map.1 he2
    rw [← hFe]
    simp
  · refine hlex.imp ?_
    intro a b hab
    rcases hab with h | h
    · exact le_of_lt h
    · exact le_of_eq h.1

/-- Witness for C5: on the spec's own example (`[A, B, C]` then `[X, Q, A]`
with only label `A` mapped to `m/one`), the aggregator gives `m/one` an entry
with mean 2 over positions `[1, 3]` and count 2. -/
theorem calculate_aggregate_rankings_spec_witness :
    (∃ e ∈ calculate_aggregate_rankings
        [⟨"m/a", "t1", ["Response A", "Response B", "Response C"]⟩,
         ⟨"m/b", "t2", ["Response X", "Response Q", "Response A"]⟩]
        [("A", ⟨"m/one", "Ethics Officer", "Response A"⟩)], e.model = "m/one") ∧
      ∀ e ∈ calculate_aggregate_rankings
        [⟨"m/a", "t1", ["Response A", "Response B", "Response C"]⟩,
         ⟨"m/b", "t2", ["Response X", "Response Q", "Response A"]⟩]
        [("A", ⟨"m/one", "Ethics Officer", "Response A"⟩)],
        e.model = "m/one" → e.average_rank = 2 ∧ e.rankings_count = 2 := by
  have h := calculate_aggregate_rankings_spec
    [⟨"m/a", "t1", ["Response A", "Response B", "Response C"]⟩,
     ⟨"m/b", "t2", ["Response X", "Response Q", "Response A"]⟩]
    [("A", ⟨"m/one", "Ethics Officer", "Response A"⟩)]
  constructor
  · exact (h.2.1 "m/one").2 (by decide)
  · intro e he hem
    have hvals := h.2.2.1 e he
    rw [hem] at hvals
    have hpf : positionsFor [("A", ⟨"m/one", "Ethics Officer", "Response A"⟩)]
        [⟨"m/a", "t1", ["Response A", "Response B", "Response C"]⟩,
         ⟨"m/b", "t2", ["Response X", "Response Q", "Response A"]⟩] "m/one" = [1, 3] := by
      decide
    rw [hpf] at hvals
    refine ⟨?_, ?_⟩
    · rw [hvals.1]
      decide
    · rw [hvals.2]
      decide
